import Mathlib

/-! Wordle (`wordle.cpp`): a shallow embedding and its verification.

The C++ program is translated function by function.

* `std::string` is `Str`, a list of characters.
* A C array is a list; every array access is checked, and an index outside
  the array is the fault `Fault.outOfRange` (undefined behaviour in C++).
* `s[i]` on a string is defined for `i ≤ s.size()` (the character at
  `s.size()` is the terminating NUL) and is a fault beyond it.
* `for (int i = 0; i < n; i++)` is `forUpTo`; the two `do ... while` loops of
  `verifyInput`, which need not terminate, take a fuel argument and end in
  `Fault.outOfFuel` when it is spent.
* `cin` is the text that is still unread together with its `eofbit` and
  `failbit`; `cout` is the text written so far. The file that `importWords`
  reads is its text, or nothing when it cannot be opened.
-/

namespace Wordle

/-- A `std::string`. -/
abbrev Str := List Char

/-- What stops an execution of the model short of a result. -/
inductive Fault where
  | outOfRange
  | outOfFuel
  deriving DecidableEq, Repr

/-- A computation of the model: a value or a fault. -/
abbrev Run := Except Fault

/-! ## Global constants -/

def ALLOWED_GUESSES : Nat := 6
def TOTAL_WORDS : Nat := 2315
def CORRECT_LP_SYMBOL : Str := ['!']
def CORRECT_L_SYMBOL : Str := ['&']
def INCORRECT_L_SYMBOL : Str := ['-']

/-! ## Strings, arrays and loops -/

/-- `s[i]` of a `std::string`: the character at `i`, NUL at `i = s.size()`. -/
def strAt (s : Str) (i : Nat) : Run Char :=
  match s[i]? with
  | some c => .ok c
  | none => if i = s.length then .ok (Char.ofNat 0) else .error .outOfRange

/-- `for (int i = 0; i < n; i++) body`, threading the state `s`. -/
def forUpTo {σ : Type} (body : Nat → σ → Run σ) : Nat → σ → Run σ
  | 0, s => .ok s
  | n + 1, s => forUpTo body n s >>= body n

/-- A `string display[][6]`: rows of cells. -/
abbrev Display := List (List Str)

/-- Reading `display[r][c]`. -/
def Display.read (d : Display) (r c : Nat) : Run Str :=
  match d[r]? with
  | none => .error .outOfRange
  | some row =>
    match row[c]? with
    | none => .error .outOfRange
    | some v => .ok v

/-- The assignment `display[r][c] = v`. -/
def Display.write (d : Display) (r c : Nat) (v : Str) : Run Display :=
  match d[r]? with
  | none => .error .outOfRange
  | some row =>
    if c < row.length then .ok (d.set r (row.set c v)) else .error .outOfRange

/-! ## displayGame -/

/-- The body of the inner loop of `displayGame` (lines 204-208). -/
def hintStep (target input : Str) (hint_index i j : Nat) (display : Display) :
    Run Display := do
  let a ← strAt input j
  let b ← strAt target i
  if a = b ∧ j ≠ i then
    display.write hint_index j CORRECT_L_SYMBOL
  else if a = b ∧ j = i then
    display.write hint_index i CORRECT_LP_SYMBOL
  else
    pure display

/-- The two nested loops of `displayGame` (lines 202-210). -/
def hintLoops (target input : Str) (hint_index : Nat) (display : Display) :
    Run Display :=
  forUpTo (fun i d => forUpTo (fun j d => hintStep target input hint_index i j d) 5 d)
    5 display

/-- The printing loops of `displayGame` (lines 214-219): the text sent to
`cout`. -/
def printDisplay (display : Display) : Run Str :=
  forUpTo (fun i out => do
      let line ← forUpTo (fun j out => do
          let cell ← display.read i j
          pure (out ++ cell)) 6 out
      pure (line ++ ['\n']))
    (ALLOWED_GUESSES * 2) []

set_option linter.unusedVariables false in
/-- `displayGame`: the updated display and the text printed. The parameter
`row_size` is not used by the function. -/
def displayGame (display : Display) (row_size : Nat) (target input : Str)
    (hint_index input_index : Nat) : Run (Display × Str) := do
  let d1 ← hintLoops target input hint_index display
  let d2 ← d1.write input_index 0 input
  let text ← printDisplay d2
  pure (d2, text)

/-- The initial value of `guess_display` in `verifyInput` (line 107): a row
given fewer than six initialisers is filled up with empty strings. -/
def guess_display_init : Display :=
  let g : List Str := [[], [], [], [], [], []]
  let h : List Str := [['-'], ['-'], ['-'], ['-'], ['-'], ['\n']]
  [g, h, g, h, g, h, g, h, g, h, g, h]

/-! ## generateWord -/

/-- The index that `generateWord` computes (line 94) from the value `r` of
`rand()`. -/
def generateIndex (array_size : Nat) (r : Nat) : Nat :=
  let MIN := 0
  let MAX := array_size
  r % (MAX - MIN + 1) + MIN

/-- `generateWord`, given the value `r` that `rand()` returns. -/
def generateWord (word_array : List Str) (array_size : Nat) (r : Nat) : Run Str :=
  match word_array[generateIndex array_size r]? with
  | some randomly_determined_word => .ok randomly_determined_word
  | none => .error .outOfRange

/-! ## The standard input -/

/-- The stream `cin`: the characters not yet read and two of its state
bits. -/
structure Cin where
  buf : List Char
  eofbit : Bool
  failbit : Bool
  deriving DecidableEq, Repr

/-- White space of the C locale. -/
def isspace (c : Char) : Bool :=
  c = ' ' || c = '\t' || c = '\n' || c = '\x0b' || c = '\x0c' || c = '\r'

/-- The extraction `cin >> input` of a `std::string`: on a stream that is not
good, or that ends before a word starts, `failbit` is set and `input` keeps
its value; otherwise leading white space is skipped and `input` becomes the
characters up to the next white space, which stays in the stream. -/
def Cin.readWord (cin : Cin) (input : Str) : Cin × Str :=
  if cin.eofbit || cin.failbit then
    ({ cin with failbit := true }, input)
  else
    match cin.buf.dropWhile isspace with
    | [] => ({ buf := [], eofbit := true, failbit := true }, input)
    | c :: rest =>
      let after := rest.dropWhile (fun x => !isspace x)
      ({ buf := after, eofbit := after.isEmpty, failbit := false },
        c :: rest.takeWhile (fun x => !isspace x))

/-- The call `cin.clear()`. -/
def Cin.clear (cin : Cin) : Cin :=
  { cin with eofbit := false, failbit := false }

/-- The characters left by `ignore(n, delim)`, and whether the end of the
stream was met. -/
def ignoreChars (delim : Char) : Nat → List Char → List Char × Bool
  | 0, buf => (buf, false)
  | _ + 1, [] => ([], true)
  | n + 1, c :: rest => if c = delim then (rest, false) else ignoreChars delim n rest

/-- The call `cin.ignore(n, delim)`. -/
def Cin.ignore (cin : Cin) (n : Nat) (delim : Char) : Cin :=
  if cin.eofbit || cin.failbit then
    { cin with failbit := true }
  else
    let r := ignoreChars delim n cin.buf
    { buf := r.1, eofbit := r.2, failbit := false }

/-- The call `cin.fail()`. -/
def Cin.fail (cin : Cin) : Bool := cin.failbit

/-! ## verifyInput -/

/-- The variables of `verifyInput`, with the two streams. -/
structure State where
  input : Str
  guess_display : Display
  number_of_guesses : Nat
  hint_display_index : Nat
  input_display_index : Nat
  exists_in_word_list : Bool
  cin : Cin
  cout : Str
  deriving DecidableEq, Repr

/-- The statement `cout << text`. -/
def State.print (s : State) (text : String) : State :=
  { s with cout := s.cout ++ text.toList }

/-- The statement `cin >> input`. -/
def State.readInput (s : State) : State :=
  let r := s.cin.readWord s.input
  { s with cin := r.1, input := r.2 }

/-- The `for` loop of lines 125-129: the flag after the scan of the word
array. -/
def scanWordList (word_array : List Str) (input : Str) (exists_in_word_list : Bool) :
    Run Bool :=
  forUpTo (fun i found =>
      match word_array[i]? with
      | some word => .ok (if input = word then true else found)
      | none => .error .outOfRange)
    TOTAL_WORDS exists_in_word_list

/-- The body of the validation loop (lines 125-138). -/
def validateBody (word_array : List Str) (s : State) : Run State := do
  let found ← scanWordList word_array s.input s.exists_in_word_list
  let s := { s with exists_in_word_list := found }
  if s.exists_in_word_list = false then
    let s := s.print "That word doesn't belong in the word list.\n\n"
    let s := { s with cin := s.cin.clear }
    let s := { s with cin := s.cin.ignore 256 '\n' }
    let s := s.print "Your word: "
    let s := s.readInput
    pure (s.print "\n")
  else
    pure s

/-- The condition of the validation loop (line 140). -/
def validateCond (s : State) : Bool :=
  s.cin.fail || (s.exists_in_word_list == false) ||
    (decide (s.input.length < 5) || decide (s.input.length > 5))

/-- The validation loop `do ... while` of lines 124-140. -/
def validateLoop (word_array : List Str) : Nat → State → Run State
  | 0, _ => .error .outOfFuel
  | fuel + 1, s => do
    let s ← validateBody word_array s
    if validateCond s then validateLoop word_array fuel s else pure s

/-- Lines 114-140: the prompt, the first extraction and the validation loop.
The value of `input` in the state returned is the accepted guess. -/
def acceptGuess (word_array : List Str) (fuel : Nat) (s : State) : Run State := do
  let s := s.print "What word would you like to guess?\n"
  let s := s.print ("Guesses left: " ++
    toString ((ALLOWED_GUESSES : Int) - (s.number_of_guesses : Int)) ++ "/6\n")
  let s := s.print "\nYour word: "
  let s := s.readInput
  let s := s.print "\n"
  let s := { s with exists_in_word_list := false }
  validateLoop word_array fuel s

/-- Lines 141-147: the accepted guess is counted and displayed. -/
def recordGuess (target : Str) (s : State) : Run State := do
  let s := { s with number_of_guesses := s.number_of_guesses + 1 }
  let r ← displayGame s.guess_display (ALLOWED_GUESSES * 2) target s.input
    s.hint_display_index s.input_display_index
  let s := { s with guess_display := r.1, cout := s.cout ++ r.2 }
  let s := { s with input_display_index := s.input_display_index + 2 }
  pure { s with hint_display_index := s.hint_display_index + 2 }

/-- The body of the loop of the round (lines 114-147). -/
def roundBody (target : Str) (word_array : List Str) (fuel : Nat) (s : State) : Run State :=
  acceptGuess word_array fuel s >>= recordGuess target

/-- The condition of the loop of the round (line 149). -/
def roundCond (target : Str) (s : State) : Bool :=
  decide (s.number_of_guesses < ALLOWED_GUESSES) && decide (s.input ≠ target)

/-- The loop of the round, `do ... while` of lines 113-149. -/
def roundLoop (target : Str) (word_array : List Str) : Nat → State → Run State
  | 0, _ => .error .outOfFuel
  | fuel + 1, s => do
    let s ← roundBody target word_array fuel s
    if roundCond target s then roundLoop target word_array fuel s else pure s

/-- How a round ends. -/
inductive Outcome where
  | won
  | lost
  deriving DecidableEq, Repr

/-- The state in which `verifyInput` enters its loop (lines 107-111). -/
def initState (input : Str) (cin : Cin) : State :=
  { input := input
    guess_display := guess_display_init
    number_of_guesses := 0
    hint_display_index := 1
    input_display_index := 0
    exists_in_word_list := false
    cin := cin
    cout := [] }

/-- `verifyInput`, reading from `cin`: how the round ends, and the final
state. Each of its two `do ... while` loops may run `fuel` times. -/
def verifyInput (target input : Str) (word_array : List Str) (cin : Cin) (fuel : Nat) :
    Run (Outcome × State) := do
  let s ← roundLoop target word_array fuel (initState input cin)
  if s.input = target then
    pure (.won, s.print "You've succesfully guessed the mystery word!\n\n")
  else
    pure (.lost, s.print "You ran out of guesses.\n\n")

/-! ## Pure counterparts of the loops, used to reason about them -/

/-- The NUL character that `s[s.size()]` yields. -/
def nul : Char := Char.ofNat 0

/-- A `for` loop whose body cannot fault. -/
def forPure {σ : Type} (f : Nat → σ → σ) : Nat → σ → σ
  | 0, s => s
  | n + 1, s => f n (forPure f n s)

/-- What iteration `(i, j)` of the loops of `displayGame` makes of the cell
in column `j` of the hint row. -/
def markStep (target input : Str) (i j : Nat) (cell : Str) : Str :=
  if input.getD j nul = target.getD i nul then
    if j ≠ i then CORRECT_L_SYMBOL else CORRECT_LP_SYMBOL
  else cell

/-- What the five iterations `i = 0..4` make of the cell in column `j`. -/
def markOf (target input : Str) (j : Nat) (cell : Str) : Str :=
  forPure (fun i c => markStep target input i j c) 5 cell

/-- Replacing cell `(r, c)` of a display by `f` of its content. -/
def Display.modifyCell (d : Display) (r c : Nat) (f : Str → Str) : Display :=
  d.set r ((d.getD r []).set c (f ((d.getD r []).getD c [])))

/-- The printing loops of `displayGame` on a display that has the twelve rows
of six cells. -/
def printPure (d : Display) : Str :=
  forPure (fun i out =>
    forPure (fun j out => out ++ (d.getD i []).getD j []) 6 out ++ ['\n'])
    (ALLOWED_GUESSES * 2) []

/-- The five marks of the code: what the loops of `displayGame` leave in the
first five cells of a hint row that held `'-'` in each. -/
def codeMarks (target input : Str) : List Str :=
  [markOf target input 0 ['-'], markOf target input 1 ['-'], markOf target input 2 ['-'],
    markOf target input 3 ['-'], markOf target input 4 ['-']]

/-- The display that `displayGame` produces, when no access is out of range. -/
def displayGamePure (d : Display) (target input : Str) (h k : Nat) : Display :=
  let row := d.getD h []
  let d1 := d.set h [markOf target input 0 (row.getD 0 []), markOf target input 1 (row.getD 1 []),
    markOf target input 2 (row.getD 2 []), markOf target input 3 (row.getD 3 []),
    markOf target input 4 (row.getD 4 []), row.getD 5 []]
  Display.modifyCell d1 k 0 (fun _ => input)

/-- A display buffer of the shape declared in `verifyInput`: twelve rows of
six cells. -/
def Display.WF (d : Display) : Prop :=
  d.length = ALLOWED_GUESSES * 2 ∧ ∀ row ∈ d, row.length = 6

/-- A hint row as `verifyInput` initialises it. -/
def freshHintRow : List Str := [['-'], ['-'], ['-'], ['-'], ['-'], ['\n']]

/-- The five marks found in row `hint_index` after the call
`displayGame(display, 12, target, input, hint_index, input_index)`. -/
def hintMarks (display : Display) (target input : Str) (hint_index input_index : Nat) :
    Run (List Str) :=
  (displayGame display (ALLOWED_GUESSES * 2) target input hint_index input_index).map
    (fun r => (r.1.getD hint_index []).take 5)

/-! ## The scoring algorithm of the specification -/

/-- A mark of the specification. -/
inductive Mark where
  | ExactMatch
  | PresentElsewhere
  | Absent
  deriving DecidableEq, Repr

/-- The symbol that renders a mark: `!`, `&` and `-`. -/
def Mark.symbol : Mark → Str
  | .ExactMatch => CORRECT_LP_SYMBOL
  | .PresentElsewhere => CORRECT_L_SYMBOL
  | .Absent => INCORRECT_L_SYMBOL

/-- First pass of the specification: the target letters that no exact match
consumes, the pool of letters still available. -/
def specPool : List Char → List Char → List Char
  | t :: ts, g :: gs => if g = t then specPool ts gs else t :: specPool ts gs
  | _, _ => []

/-- Second pass of the specification, left to right over the positions: an
exactly matched position keeps `ExactMatch`; any other is `PresentElsewhere`
when its letter is in the pool, which then loses one occurrence of it, and
`Absent` otherwise. -/
def specSecondPass : List Char → List Char → List Char → List Mark
  | t :: ts, g :: gs, pool =>
    if g = t then .ExactMatch :: specSecondPass ts gs pool
    else if g ∈ pool then .PresentElsewhere :: specSecondPass ts gs (pool.erase g)
    else .Absent :: specSecondPass ts gs pool
  | _, _, _ => []

/-- The feedback of the two-pass, consume-on-use algorithm of the
specification. -/
def specScore (target guess : List Char) : List Mark :=
  specSecondPass target guess (specPool target guess)

/-- The feedback of the specification, rendered as symbols. -/
def specMarks (target guess : List Char) : List Str :=
  (specScore target guess).map Mark.symbol

/-- Scoring by membership alone, without a pool: exact where the letters
agree, present where the guess letter occurs in the target at all. -/
def memberMark (target : List Char) (t g : Char) : Mark :=
  if g = t then .ExactMatch else if g ∈ target then .PresentElsewhere else .Absent

/-- The number of positions that hold `c` in the guess and another letter in
the target. -/
def misplaced : List Char → List Char → Char → Nat
  | t :: ts, g :: gs, c => (if g = c ∧ g ≠ t then 1 else 0) + misplaced ts gs c
  | _, _, _ => 0

/-- No letter that the guess has in the right place occurs again further to
the right in the target. -/
def NoLaterRepeat (target input : Str) : Prop :=
  ∀ i < target.length, ∀ j < i, input[j]? = target[j]? → target[i]? ≠ input[j]?

instance instDecidableNoLaterRepeat (target input : Str) : Decidable (NoLaterRepeat target input) := by
  unfold NoLaterRepeat; infer_instance

/-- No letter of the target occurs more often in the guess than in the
target. -/
def NoExcess (target input : Str) : Prop :=
  ∀ c ∈ input, c ∈ target → input.count c ≤ target.count c

instance instDecidableNoExcess (target input : Str) : Decidable (NoExcess target input) := by
  unfold NoExcess; infer_instance

/-- The number of positions of the guess that hold the letter `c` and whose
mark is `!` or `&`. -/
def markedCount (marks : List Str) (input : Str) (c : Char) : Nat :=
  (List.zip input marks).countP
    (fun p => decide (p.1 = c ∧ (p.2 = CORRECT_LP_SYMBOL ∨ p.2 = CORRECT_L_SYMBOL)))

instance instDecidableWF (d : Display) : Decidable d.WF := by
  unfold Display.WF; infer_instance

/-- The words that the scan of lines 125-129 compares with the input: the
first `TOTAL_WORDS` slots of the word array. -/
def vocabulary (word_array : List Str) : List Str := word_array.take TOTAL_WORDS

/-- The flag `exists_in_word_list` is set only for a word of the array. -/
def State.FlagSound (word_array : List Str) (s : State) : Prop :=
  s.exists_in_word_list = true → s.input ∈ vocabulary word_array

/-- Two states agree on the count of guesses, the display and its indices. -/
def State.SameProgress (s s' : State) : Prop :=
  s'.number_of_guesses = s.number_of_guesses ∧ s'.guess_display = s.guess_display ∧
    s'.hint_display_index = s.hint_display_index ∧
    s'.input_display_index = s.input_display_index

instance instDecidableEqRun {α : Type} [DecidableEq α] : DecidableEq (Run α) :=
  fun a b =>
    match a, b with
    | .ok x, .ok y => if h : x = y then isTrue (by rw [h]) else isFalse (by intro e; cases e; exact h rfl)
    | .error x, .error y => if h : x = y then isTrue (by rw [h]) else isFalse (by intro e; cases e; exact h rfl)
    | .ok _, .error _ => isFalse (by intro e; cases e)
    | .error _, .ok _ => isFalse (by intro e; cases e)

/-- A word as it can be typed: not empty and free of white space. -/
def Typeable (w : Str) : Prop := w ≠ [] ∧ ∀ c ∈ w, isspace c = false

instance instDecidableTypeable (w : Str) : Decidable (Typeable w) := by
  unfold Typeable; infer_instance

/-- The text of lines of one word each, every word followed by a newline. -/
def linesText : List Str → List Char
  | [] => []
  | w :: ws => w ++ '\n' :: linesText ws

/-- A stream in the good state that holds the text `buf`. -/
def Cin.ofText (buf : List Char) : Cin := { buf := buf, eofbit := false, failbit := false }

/-- The rows that the accepted guesses `gs` fill: for each, the row of the
guess and the row of its marks. -/
def transcriptRows (target : Str) : List Str → Display
  | [] => []
  | g :: gs => [g, [], [], [], [], []] :: (codeMarks target g ++ [['\n']]) ::
      transcriptRows target gs

/-- The display buffer in which the guesses `gs`, in this order, fill the
first rows and all further rows are as `verifyInput` initialised them. -/
def transcriptDisplay (target : Str) (gs : List Str) : Display :=
  transcriptRows target gs ++ guess_display_init.drop (2 * gs.length)

/-- The state of `verifyInput` records the accepted guesses `gs`. -/
def RoundInv (target : Str) (gs : List Str) (s : State) : Prop :=
  s.number_of_guesses = gs.length ∧ s.input_display_index = 2 * gs.length ∧
    s.hint_display_index = 2 * gs.length + 1 ∧
    s.guess_display = transcriptDisplay target gs

/-- `Round target word_array s0 gs s`: from the state `s0` in which
`verifyInput` enters its loop, one pass through the body of the loop for each
guess of `gs` leads to the state `s`, and `gs` lists, in this order, the
guesses that these passes accepted. The first pass is unconditional
(`do ... while`), each further one is taken when the condition of line 149
holds. -/
inductive Round (target : Str) (word_array : List Str) (s0 : State) :
    List Str → State → Prop where
  | start : Round target word_array s0 [] s0
  | pass (gs : List Str) (s s' : State) (fuel : Nat) :
      Round target word_array s0 gs s →
      (gs = [] ∨ roundCond target s = true) →
      roundBody target word_array fuel s = .ok s' →
      Round target word_array s0 (gs ++ [s'.input]) s'

/-- A word array as `importWords` leaves it when the file holds the five
words crane, speed, erase, abbey and geese: the other slots are empty. -/
def sampleWords : List Str :=
  [['c', 'r', 'a', 'n', 'e'], ['s', 'p', 'e', 'e', 'd'], ['e', 'r', 'a', 's', 'e'],
    ['a', 'b', 'b', 'e', 'y'], ['g', 'e', 'e', 's', 'e']] ++ List.replicate 2310 []

/-! ## importWords -/

/-- The loop `while (myfile >> extracted_word)` of lines 63-66; it may run
`fuel` times. -/
def importLoop : Nat → Cin → Str → List Str → Nat → Run (List Str)
  | 0, _, _, _, _ => .error .outOfFuel
  | fuel + 1, myfile, extracted_word, word_array, index_counter =>
    let r := myfile.readWord extracted_word
    if r.1.fail then .ok word_array
    else if index_counter < word_array.length then
      importLoop fuel r.1 r.2 (word_array.set index_counter r.2) (index_counter + 1)
    else .error .outOfRange

/-- `importWords`: the word array after the call, and the text printed. The
argument `file` is the content of `vocab_data.txt`, or `none` when the file
cannot be opened. -/
def importWords (word_array : List Str) (file : Option (List Char)) (fuel : Nat) :
    Run (List Str × Str) :=
  match file with
  | some text =>
    (importLoop fuel (Cin.ofText text) [] word_array 0).map (fun filled => (filled, []))
  | none => .ok (word_array, "Unable to open file\n".toList)

/-- The array `word_list` as `main` declares it (line 42): `TOTAL_WORDS` empty
strings. -/
def word_list_init : List Str := List.replicate TOTAL_WORDS []

/-! ## Lemmas on strings, arrays and loops -/

theorem strAt_of_le (s : Str) (i : Nat) (h : i ≤ s.length) :
    strAt s i = .ok (s.getD i nul) := by
  unfold strAt
  rcases Nat.lt_or_eq_of_le h with h1 | h1
  · simp [List.getElem?_eq_getElem h1]
  · subst h1
    simp [nul]

theorem forUpTo_eq_forPure {σ : Type} (body : Nat → σ → Run σ) (f : Nat → σ → σ)
    (I : σ → Prop) (n : Nat)
    (hI : ∀ i s, i < n → I s → I (f i s))
    (hb : ∀ i s, i < n → I s → body i s = .ok (f i s)) (s : σ) (hs : I s) :
    forUpTo body n s = .ok (forPure f n s) ∧ I (forPure f n s) := by
  induction n with
  | zero => exact ⟨rfl, hs⟩
  | succ n ih =>
    have ih1 := ih (fun i s hi => hI i s (Nat.lt_succ_of_lt hi))
      (fun i s hi => hb i s (Nat.lt_succ_of_lt hi))
    refine ⟨?_, ?_⟩
    · show (forUpTo body n s >>= body n) = _
      rw [ih1.1]
      exact hb n _ (Nat.lt_succ_self n) ih1.2
    · exact hI n _ (Nat.lt_succ_self n) ih1.2

theorem Display.write_eq_modifyCell (d : Display) (r c : Nat) (v : Str)
    (hr : r < d.length) (hc : c < (d.getD r []).length) :
    d.write r c v = .ok (d.modifyCell r c (fun _ => v)) := by
  unfold Display.write Display.modifyCell
  simp only [List.getD_eq_getElem?_getD, List.getElem?_eq_getElem hr, Option.getD_some] at hc ⊢
  simp [hc]

theorem Display.modifyCell_id (d : Display) (r c : Nat) :
    d.modifyCell r c (fun x => x) = d := by
  unfold Display.modifyCell
  apply List.ext_getElem?
  intro k
  by_cases hk : k = r
  · subst hk
    by_cases hl : k < d.length
    · rw [List.getElem?_set_self hl]
      simp only [List.getD_eq_getElem?_getD, List.getElem?_eq_getElem hl, Option.getD_some]
      congr 1
      apply List.ext_getElem?
      intro m
      by_cases hm : m = c
      · subst hm
        by_cases hml : m < (d[k]).length
        · rw [List.getElem?_set_self hml]
          simp [List.getElem?_eq_getElem hml]
        · rw [List.set_eq_of_length_le (Nat.le_of_not_lt hml)]
      · rw [List.getElem?_set_ne (Ne.symm hm)]
    · rw [List.set_eq_of_length_le (Nat.le_of_not_lt hl)]
  · rw [List.getElem?_set_ne (Ne.symm hk)]

@[simp] theorem Display.length_modifyCell (d : Display) (r c : Nat) (f : Str → Str) :
    (d.modifyCell r c f).length = d.length := by
  simp [Display.modifyCell]

theorem Display.rowLength_modifyCell (d : Display) (r r' c : Nat) (f : Str → Str) :
    ((d.modifyCell r c f).getD r' []).length = (d.getD r' []).length := by
  unfold Display.modifyCell
  by_cases hk : r = r'
  · subst hk
    by_cases hl : r < d.length
    · simp [hl]
    · rw [List.set_eq_of_length_le (Nat.le_of_not_lt hl)]
  · simp [List.getElem?_set_ne hk]

theorem hintStep_eq (target input : Str) (h i j : Nat) (d : Display)
    (hi : i ≤ target.length) (hj : j ≤ input.length)
    (hr : h < d.length) (hc : j < (d.getD h []).length) :
    hintStep target input h i j d = .ok (d.modifyCell h j (markStep target input i j)) := by
  unfold hintStep
  rw [strAt_of_le _ _ hi, strAt_of_le _ _ hj]
  show (if input.getD j nul = target.getD i nul ∧ j ≠ i then _ else _) = _
  by_cases he : input.getD j nul = target.getD i nul
  · by_cases hji : j = i
    · subst hji
      have : markStep target input j j = fun _ => CORRECT_LP_SYMBOL := by
        funext c; unfold markStep; rw [if_pos he, if_neg (by simp)]
      rw [this, if_neg (by simp), if_pos ⟨he, rfl⟩]
      exact Display.write_eq_modifyCell d h j _ hr hc
    · have : markStep target input i j = fun _ => CORRECT_L_SYMBOL := by
        funext c; unfold markStep; rw [if_pos he, if_pos hji]
      rw [this, if_pos ⟨he, hji⟩]
      exact Display.write_eq_modifyCell d h j _ hr hc
  · have : markStep target input i j = fun x => x := by
      funext c; unfold markStep; rw [if_neg he]
    rw [this, Display.modifyCell_id, if_neg (fun hh => he hh.1), if_neg (fun hh => he hh.1)]
    rfl

theorem list_length_five {α : Type} (l : List α) (h : l.length = 5) :
    ∃ a b c d e, l = [a, b, c, d, e] := by
  match l, h with
  | [a, b, c, d, e], _ => exact ⟨a, b, c, d, e, rfl⟩

theorem list_length_six {α : Type} (l : List α) (h : l.length = 6) :
    ∃ a b c d e f, l = [a, b, c, d, e, f] := by
  match l, h with
  | [a, b, c, d, e, f], _ => exact ⟨a, b, c, d, e, f, rfl⟩

theorem Display.modifyCell_of_row (d : Display) (r c : Nat) (f : Str → Str)
    (row : List Str) (hrow : d[r]? = some row) :
    d.modifyCell r c f = d.set r (row.set c (f (row.getD c []))) := by
  simp [Display.modifyCell, hrow]

theorem Display.modifyCell_set (d : Display) (r c : Nat) (f : Str → Str)
    (row : List Str) (hr : r < d.length) :
    Display.modifyCell (d.set r row) r c f = d.set r (row.set c (f (row.getD c []))) := by
  rw [Display.modifyCell_of_row (d.set r row) r c f row (List.getElem?_set_self hr),
    List.set_set]

/-- The nested loops of `displayGame`, as iterated cell updates. -/
theorem hintLoops_eq_forPure (target input : Str) (h : Nat) (d : Display)
    (ht : 4 ≤ target.length) (hi : 4 ≤ input.length)
    (hr : h < d.length) (hc : 5 ≤ (d.getD h []).length) :
    hintLoops target input h d =
      .ok (forPure (fun i d =>
        forPure (fun j d => d.modifyCell h j (markStep target input i j)) 5 d) 5 d) := by
  let I : Display → Prop := fun d => h < d.length ∧ 5 ≤ (d.getD h []).length
  have hstepI : ∀ i j (d : Display), I d → I (d.modifyCell h j (markStep target input i j)) := by
    intro i j d hd
    exact ⟨by rw [Display.length_modifyCell]; exact hd.1,
      by rw [Display.rowLength_modifyCell]; exact hd.2⟩
  have inner : ∀ i, i < 5 → ∀ d, I d →
      forUpTo (fun j d => hintStep target input h i j d) 5 d =
        .ok (forPure (fun j d => d.modifyCell h j (markStep target input i j)) 5 d) ∧
      I (forPure (fun j d => d.modifyCell h j (markStep target input i j)) 5 d) := by
    intro i hi5 d hd
    refine forUpTo_eq_forPure _ _ I 5 (fun j s _ hs => hstepI i j s hs) ?_ d hd
    intro j s hj hs
    exact hintStep_eq target input h i j s (by omega) (by omega) hs.1 (by have := hs.2; omega)
  exact (forUpTo_eq_forPure _ _ I 5 (fun i s hi5 hs => (inner i hi5 s hs).2)
    (fun i s hi5 hs => (inner i hi5 s hs).1) d ⟨hr, hc⟩).1

/-- The nested loops of `displayGame` change the first five cells of the hint
row, each to its `markOf`, and nothing else. -/
theorem hintLoops_eq (target input : Str) (h : Nat) (d : Display)
    (c0 c1 c2 c3 c4 c5 : Str)
    (ht : 4 ≤ target.length) (hi : 4 ≤ input.length)
    (hrow : d[h]? = some [c0, c1, c2, c3, c4, c5]) :
    hintLoops target input h d =
      .ok (d.set h [markOf target input 0 c0, markOf target input 1 c1,
        markOf target input 2 c2, markOf target input 3 c3, markOf target input 4 c4, c5]) := by
  have hr : h < d.length := by
    rcases Nat.lt_or_ge h d.length with hlt | hge
    · exact hlt
    · rw [List.getElem?_eq_none hge] at hrow; cases hrow
  rw [hintLoops_eq_forPure target input h d ht hi hr (by simp [hrow])]
  simp only [forPure]
  rw [Display.modifyCell_of_row d h 0 _ _ hrow]
  simp only [Display.modifyCell_set _ _ _ _ _ hr, List.set_cons_zero, List.set_cons_succ,
    List.getD_cons_zero, List.getD_cons_succ, markOf, forPure]

theorem Display.WF_row {d : Display} (hd : d.WF) {r : Nat} (hr : r < ALLOWED_GUESSES * 2) :
    ∃ row, d[r]? = some row ∧ row.length = 6 := by
  have hlt : r < d.length := by rw [hd.1]; exact hr
  exact ⟨d[r], List.getElem?_eq_getElem hlt, hd.2 _ (List.getElem_mem hlt)⟩

theorem Display.WF_set {d : Display} (hd : d.WF) (r : Nat) (row : List Str)
    (hrow : row.length = 6) : Display.WF (d.set r row) := by
  refine ⟨by rw [List.length_set]; exact hd.1, ?_⟩
  intro x hx
  rcases List.mem_or_eq_of_mem_set hx with h1 | h1
  · exact hd.2 x h1
  · rw [h1]; exact hrow

theorem Display.WF_modifyCell {d : Display} (hd : d.WF) (r c : Nat) (f : Str → Str) :
    Display.WF (d.modifyCell r c f) := by
  unfold Display.modifyCell
  by_cases hr : r < d.length
  · refine Display.WF_set hd r _ ?_
    rw [List.length_set]
    simp only [List.getD_eq_getElem?_getD, List.getElem?_eq_getElem hr, Option.getD_some]
    exact hd.2 _ (List.getElem_mem hr)
  · rw [List.set_eq_of_length_le (Nat.le_of_not_lt hr)]
    exact hd

theorem printDisplay_eq (d : Display) (hd : d.WF) : printDisplay d = .ok (printPure d) := by
  unfold printDisplay printPure
  refine (forUpTo_eq_forPure _ _ (fun _ => True) _ (fun _ _ _ _ => trivial) ?_ [] trivial).1
  intro i out hi _
  obtain ⟨row, hrow, hlen⟩ := Display.WF_row hd hi
  have inner := (forUpTo_eq_forPure
    (fun j out => do
      let cell ← d.read i j
      pure (out ++ cell))
    (fun j out => out ++ (d.getD i []).getD j []) (fun _ => True) 6
    (fun _ _ _ _ => trivial) (by
      intro j o hj _
      have hj6 : j < row.length := by rw [hlen]; exact hj
      simp [Display.read, hrow, List.getElem?_eq_getElem hj6]) out trivial).1
  show (forUpTo _ 6 out >>= fun line => pure (line ++ ['\n'])) = _
  rw [inner]
  rfl

/-- On a well-formed display and words of at least four letters no access of
`displayGame` is out of range, and its result is `displayGamePure`. -/
theorem displayGame_eq (d : Display) (row_size : Nat) (target input : Str) (h k : Nat)
    (hd : d.WF) (ht : 4 ≤ target.length) (hi : 4 ≤ input.length)
    (hh : h < ALLOWED_GUESSES * 2) (hk : k < ALLOWED_GUESSES * 2) :
    displayGame d row_size target input h k =
      .ok (displayGamePure d target input h k, printPure (displayGamePure d target input h k)) ∧
    (displayGamePure d target input h k).WF := by
  obtain ⟨row, hrow, hlen⟩ := Display.WF_row hd hh
  obtain ⟨c0, c1, c2, c3, c4, c5, rfl⟩ := list_length_six row hlen
  have hwf1 : Display.WF (d.set h [markOf target input 0 c0, markOf target input 1 c1,
      markOf target input 2 c2, markOf target input 3 c3, markOf target input 4 c4, c5]) :=
    Display.WF_set hd h _ rfl
  have hpure : displayGamePure d target input h k =
      Display.modifyCell (d.set h [markOf target input 0 c0, markOf target input 1 c1,
        markOf target input 2 c2, markOf target input 3 c3, markOf target input 4 c4, c5])
        k 0 (fun _ => input) := by
    simp [displayGamePure, hrow]
  have hwf2 : (displayGamePure d target input h k).WF := by
    rw [hpure]; exact Display.WF_modifyCell hwf1 k 0 _
  refine ⟨?_, hwf2⟩
  unfold displayGame
  rw [hintLoops_eq target input h d c0 c1 c2 c3 c4 c5 ht hi hrow]
  obtain ⟨rowk, hrowk, hlenk⟩ := Display.WF_row hwf1 hk
  have hklt : k < (d.set h [markOf target input 0 c0, markOf target input 1 c1,
      markOf target input 2 c2, markOf target input 3 c3, markOf target input 4 c4,
      c5]).length := by rw [hwf1.1]; exact hk
  show (Display.write _ k 0 input >>= _) = _
  rw [Display.write_eq_modifyCell _ k 0 input hklt (by simp [hrowk, hlenk]), ← hpure]
  show (printDisplay _ >>= _) = _
  rw [printDisplay_eq _ hwf2]
  rfl

/-- The hint row after `displayGame`, when the guess goes to another row. -/
theorem displayGamePure_hintRow (d : Display) (target input : Str) (h k : Nat)
    (hh : h < d.length) (hkh : k ≠ h) :
    (displayGamePure d target input h k)[h]? =
      some [markOf target input 0 ((d.getD h []).getD 0 []),
        markOf target input 1 ((d.getD h []).getD 1 []),
        markOf target input 2 ((d.getD h []).getD 2 []),
        markOf target input 3 ((d.getD h []).getD 3 []),
        markOf target input 4 ((d.getD h []).getD 4 []), (d.getD h []).getD 5 []] := by
  unfold displayGamePure Display.modifyCell
  rw [List.getElem?_set_ne hkh, List.getElem?_set_self hh]

/-- The marks that `displayGame` writes into a fresh hint row are
`codeMarks`. -/
theorem hintMarks_eq (d : Display) (target input : Str) (h k : Nat)
    (hd : d.WF) (ht : 4 ≤ target.length) (hi : 4 ≤ input.length)
    (hh : h < ALLOWED_GUESSES * 2) (hk : k < ALLOWED_GUESSES * 2) (hkh : k ≠ h)
    (hfresh : d[h]? = some freshHintRow) :
    hintMarks d target input h k = .ok (codeMarks target input) := by
  unfold hintMarks
  rw [(displayGame_eq d _ target input h k hd ht hi hh hk).1]
  have hlt : h < d.length := by rw [hd.1]; exact hh
  have := displayGamePure_hintRow d target input h k hlt hkh
  simp only [Except.map, List.getD_eq_getElem?_getD, this, hfresh, Option.getD_some]
  simp [freshHintRow, codeMarks]

/-! ## The two-pass algorithm against scoring by membership -/

theorem count_add_misplaced (c : Char) :
    ∀ ts gs : List Char, ts.length = gs.length →
      ts.count c + misplaced ts gs c = (specPool ts gs).count c + gs.count c
  | [], [], _ => by simp [misplaced, specPool]
  | [], _ :: _, h => by simp at h
  | _ :: _, [], h => by simp at h
  | t :: ts, g :: gs, h => by
    have ih := count_add_misplaced c ts gs (by simpa using h)
    by_cases hgt : g = t
    · subst hgt
      simp only [misplaced, specPool, List.count_cons, ne_eq, not_true_eq_false, and_false,
        if_false, if_true, beq_iff_eq]
      omega
    · simp only [misplaced, specPool, hgt, List.count_cons, ne_eq, not_false_eq_true, and_true,
        if_false, beq_iff_eq]
      omega

theorem misplaced_le_count (c : Char) :
    ∀ ts gs : List Char, misplaced ts gs c ≤ gs.count c
  | [], _ => by simp [misplaced]
  | _ :: _, [] => by simp [misplaced]
  | t :: ts, g :: gs => by
    have ih := misplaced_le_count c ts gs
    simp only [misplaced, List.count_cons, beq_iff_eq]
    split_ifs <;> simp_all <;> omega

theorem specPool_subset :
    ∀ (ts gs : List Char) (c : Char), c ∈ specPool ts gs → c ∈ ts
  | [], _, c => by simp [specPool]
  | _ :: _, [], c => by simp [specPool]
  | t :: ts, g :: gs, c => by
    intro hc
    by_cases hgt : g = t
    · simp only [specPool, hgt, if_true] at hc
      exact List.mem_cons_of_mem _ (specPool_subset ts gs c hc)
    · simp only [specPool, hgt, if_false, List.mem_cons] at hc
      rcases hc with h1 | h1
      · rw [h1]; exact List.mem_cons_self _ _
      · exact List.mem_cons_of_mem _ (specPool_subset ts gs c h1)

/-- While the pool holds every letter of the target as often as it is still
misplaced in the guess, the second pass scores by membership. -/
theorem specSecondPass_eq_member (T : List Char) :
    ∀ (ts gs pool : List Char),
      (∀ c, c ∈ T → misplaced ts gs c ≤ pool.count c) → (∀ c, c ∉ T → c ∉ pool) →
      specSecondPass ts gs pool = List.zipWith (memberMark T) ts gs
  | [], _, _ => by intros; simp [specSecondPass]
  | _ :: _, [], _ => by intros; simp [specSecondPass]
  | t :: ts, g :: gs, pool => by
    intro hneed hout
    by_cases hgt : g = t
    · have ih := specSecondPass_eq_member T ts gs pool
        (fun c hc => by
          have := hneed c hc
          simp only [misplaced, hgt, ne_eq, not_true_eq_false, and_false, if_false] at this
          omega) hout
      simp [specSecondPass, memberMark, hgt, ih]
    · by_cases hgT : g ∈ T
      · have hpos : 0 < pool.count g := by
          have := hneed g hgT
          simp only [misplaced, hgt, ne_eq, not_false_eq_true, and_self, if_true] at this
          omega
        have hmem : g ∈ pool := List.count_pos_iff.mp hpos
        have ih := specSecondPass_eq_member T ts gs (pool.erase g)
          (fun c hc => by
            have := hneed c hc
            simp only [misplaced, hgt, ne_eq, not_false_eq_true, and_true] at this
            by_cases hcg : g = c
            · subst hcg
              rw [List.count_erase_self]
              simp only [if_true] at this
              omega
            · rw [List.count_erase_of_ne (Ne.symm hcg)]
              simp only [hcg, if_false] at this
              omega)
          (fun c hc hin => hout c hc (List.mem_of_mem_erase hin))
        simp [specSecondPass, memberMark, hgt, hgT, hmem, ih]
      · have hmem : g ∉ pool := hout g hgT
        have ih := specSecondPass_eq_member T ts gs pool
          (fun c hc => by
            have := hneed c hc
            simp only [misplaced, hgt, ne_eq, not_false_eq_true, and_true] at this
            omega) hout
        simp [specSecondPass, memberMark, hgt, hgT, hmem, ih]

/-- When no letter of the target occurs more often in the guess than in the
target, the two-pass algorithm scores by membership. -/
theorem specScore_eq_member (target guess : List Char) (hlen : target.length = guess.length)
    (hcount : ∀ c, c ∈ guess → c ∈ target → guess.count c ≤ target.count c) :
    specScore target guess = List.zipWith (memberMark target) target guess := by
  unfold specScore
  apply specSecondPass_eq_member
  · intro c hcT
    have h1 := count_add_misplaced c target guess hlen
    have h2 := misplaced_le_count c target guess
    by_cases hcG : c ∈ guess
    · have := hcount c hcG hcT
      omega
    · have : guess.count c = 0 := List.count_eq_zero_of_not_mem hcG
      omega
  · intro c hc hin
    exact hc (specPool_subset target guess c hin)

/-! ## The marks of the code against scoring by membership -/

/-- The mark of the code in column `j`, letter by letter. -/
theorem markOf_five (t0 t1 t2 t3 t4 g0 g1 g2 g3 g4 : Char) (j : Nat) (cell : Str) :
    markOf [t0, t1, t2, t3, t4] [g0, g1, g2, g3, g4] j cell =
      markStep [t0, t1, t2, t3, t4] [g0, g1, g2, g3, g4] 4 j
        (markStep [t0, t1, t2, t3, t4] [g0, g1, g2, g3, g4] 3 j
          (markStep [t0, t1, t2, t3, t4] [g0, g1, g2, g3, g4] 2 j
            (markStep [t0, t1, t2, t3, t4] [g0, g1, g2, g3, g4] 1 j
              (markStep [t0, t1, t2, t3, t4] [g0, g1, g2, g3, g4] 0 j cell)))) := rfl

/-- Where no exactly matched letter occurs again later in the target, the
code scores by membership. -/
theorem codeMarks_eq_member (target input : Str) (ht : target.length = 5)
    (hi : input.length = 5) (hslip : NoLaterRepeat target input) :
    codeMarks target input =
      (List.zipWith (memberMark target) target input).map Mark.symbol := by
  obtain ⟨t0, t1, t2, t3, t4, rfl⟩ := list_length_five target ht
  obtain ⟨g0, g1, g2, g3, g4, rfl⟩ := list_length_five input hi
  have h01 := hslip 1 (by simp) 0 (by decide)
  have h02 := hslip 2 (by simp) 0 (by decide)
  have h03 := hslip 3 (by simp) 0 (by decide)
  have h04 := hslip 4 (by simp) 0 (by decide)
  have h12 := hslip 2 (by simp) 1 (by decide)
  have h13 := hslip 3 (by simp) 1 (by decide)
  have h14 := hslip 4 (by simp) 1 (by decide)
  have h23 := hslip 3 (by simp) 2 (by decide)
  have h24 := hslip 4 (by simp) 2 (by decide)
  have h34 := hslip 4 (by simp) 3 (by decide)
  simp only [List.getElem?_cons_zero, List.getElem?_cons_succ, Option.some.injEq, ne_eq] at h01 h02 h03 h04 h12 h13 h14 h23 h24 h34
  simp only [codeMarks, markOf_five, markStep, List.getD_cons_zero, List.getD_cons_succ,
    List.zipWith_cons_cons, List.zipWith_nil_right, List.map_cons, List.map_nil, memberMark,
    List.mem_cons, List.mem_singleton, List.not_mem_nil, or_false]
  refine congrArg₂ _ ?_ (congrArg₂ _ ?_ (congrArg₂ _ ?_ (congrArg₂ _ ?_ (congrArg₂ _ ?_ rfl))))
  · clear h12 h13 h14 h23 h24 h34
    by_cases e : g0 = t0
    · have a1 := h01 e
      have a2 := h02 e
      have a3 := h03 e
      have a4 := h04 e
      rw [if_neg (Ne.symm a4), if_neg (Ne.symm a3), if_neg (Ne.symm a2), if_neg (Ne.symm a1)]
      simp [e, Mark.symbol]
    · clear h01 h02 h03 h04
      split_ifs <;> simp_all [Mark.symbol, INCORRECT_L_SYMBOL]
  · clear h01 h02 h03 h04 h23 h24 h34
    by_cases e : g1 = t1
    · have a2 := h12 e
      have a3 := h13 e
      have a4 := h14 e
      rw [if_neg (Ne.symm a4), if_neg (Ne.symm a3), if_neg (Ne.symm a2)]
      simp [e, Mark.symbol]
    · clear h12 h13 h14
      split_ifs <;> simp_all [Mark.symbol, INCORRECT_L_SYMBOL]
  · clear h01 h02 h03 h04 h12 h13 h14 h34
    by_cases e : g2 = t2
    · have a3 := h23 e
      have a4 := h24 e
      rw [if_neg (Ne.symm a4), if_neg (Ne.symm a3)]
      simp [e, Mark.symbol]
    · clear h23 h24
      split_ifs <;> simp_all [Mark.symbol, INCORRECT_L_SYMBOL]
  · clear h01 h02 h03 h04 h12 h13 h14 h23 h24
    by_cases e : g3 = t3
    · have a4 := h34 e
      rw [if_neg (Ne.symm a4)]
      simp [e, Mark.symbol]
    · clear h34
      split_ifs <;> simp_all [Mark.symbol, INCORRECT_L_SYMBOL]
  · clear h01 h02 h03 h04 h12 h13 h14 h23 h24 h34
    by_cases e : g4 = t4
    · simp [e, Mark.symbol]
    · split_ifs <;> simp_all [Mark.symbol, INCORRECT_L_SYMBOL]

/-- A position is marked `!` or `&` by the code exactly when its letter
occurs in the target. -/
theorem markOf_marked_iff (t0 t1 t2 t3 t4 g0 g1 g2 g3 g4 : Char) (j : Nat) (hj : j < 5) :
    (markOf [t0, t1, t2, t3, t4] [g0, g1, g2, g3, g4] j ['-'] = CORRECT_LP_SYMBOL ∨
      markOf [t0, t1, t2, t3, t4] [g0, g1, g2, g3, g4] j ['-'] = CORRECT_L_SYMBOL) ↔
    [g0, g1, g2, g3, g4].getD j nul ∈ [t0, t1, t2, t3, t4] := by
  have hne1 : CORRECT_LP_SYMBOL ≠ CORRECT_L_SYMBOL := by decide
  have hne2 : (['-'] : Str) ≠ CORRECT_LP_SYMBOL := by decide
  have hne3 : (['-'] : Str) ≠ CORRECT_L_SYMBOL := by decide
  interval_cases j <;>
    simp only [markOf_five, markStep, List.getD_cons_zero, List.getD_cons_succ,
      List.mem_cons, List.mem_singleton, List.not_mem_nil, or_false] <;>
    split_ifs <;> simp_all

theorem markedCount_of_forall₂ (T : List Char) (c : Char) (input : Str) (marks : List Str)
    (h : List.Forall₂
      (fun g m => (m = CORRECT_LP_SYMBOL ∨ m = CORRECT_L_SYMBOL) ↔ g ∈ T) input marks) :
    markedCount marks input c = if c ∈ T then input.count c else 0 := by
  unfold markedCount
  induction h with
  | nil => simp
  | @cons g m gs ms hhead _ ih =>
    rw [List.zip_cons_cons, List.countP_cons, ih, List.count_cons]
    by_cases hc : c ∈ T
    · by_cases hg : g = c
      · subst hg
        simp [hc, hhead]
      · simp [hc, hg]
    · by_cases hg : g = c
      · subst hg
        simp [hc, hhead]
      · simp [hc, hg]

/-- The count of marked positions of a letter, for the marks of the code. -/
theorem markedCount_codeMarks (target input : Str) (c : Char) (ht : target.length = 5)
    (hi : input.length = 5) :
    markedCount (codeMarks target input) input c =
      if c ∈ target then input.count c else 0 := by
  obtain ⟨t0, t1, t2, t3, t4, rfl⟩ := list_length_five target ht
  obtain ⟨g0, g1, g2, g3, g4, rfl⟩ := list_length_five input hi
  apply markedCount_of_forall₂
  have h := markOf_marked_iff t0 t1 t2 t3 t4 g0 g1 g2 g3 g4
  exact List.Forall₂.cons (h 0 (by decide)) (List.Forall₂.cons (h 1 (by decide))
    (List.Forall₂.cons (h 2 (by decide)) (List.Forall₂.cons (h 3 (by decide))
      (List.Forall₂.cons (h 4 (by decide)) List.Forall₂.nil))))

/-- The two-pass algorithm marks a letter at most as often as the target and
the pool provide it. -/
theorem specSecondPass_markedCount (c : Char) :
    ∀ (ts gs pool : List Char),
      markedCount ((specSecondPass ts gs pool).map Mark.symbol) gs c +
        (specPool ts gs).count c ≤ ts.count c + pool.count c
  | [], _, _ => by simp [specSecondPass, specPool, markedCount]
  | _ :: _, [], _ => by simp [specSecondPass, specPool, markedCount]
  | t :: ts, g :: gs, pool => by
    by_cases hgt : g = t
    · have ih := specSecondPass_markedCount c ts gs pool
      simp only [markedCount] at ih ⊢
      simp only [specSecondPass, specPool, hgt, if_true, List.map_cons, List.zip_cons_cons,
        List.countP_cons, List.count_cons, Mark.symbol, beq_iff_eq]
      split_ifs <;> simp_all
      omega
    · by_cases hmem : g ∈ pool
      · have ih := specSecondPass_markedCount c ts gs (pool.erase g)
        have hpos : 0 < pool.count g := List.count_pos_iff.mpr hmem
        have herase : (pool.erase g).count c = pool.count c - if g = c then 1 else 0 := by
          by_cases hgc : g = c
          · subst hgc; simp [List.count_erase_self]
          · simp [List.count_erase_of_ne (Ne.symm hgc), hgc]
        simp only [markedCount] at ih ⊢
        simp only [specSecondPass, specPool, hgt, hmem, if_true, if_false, List.map_cons,
          List.zip_cons_cons, List.countP_cons, List.count_cons, Mark.symbol, beq_iff_eq]
        rw [herase] at ih
        have hsym : (CORRECT_L_SYMBOL = CORRECT_LP_SYMBOL ∨ CORRECT_L_SYMBOL = CORRECT_L_SYMBOL) :=
          Or.inr rfl
        by_cases hgc : g = c
        · subst hgc
          simp only [hsym, and_self, decide_True, if_true] at ih ⊢
          split_ifs <;> omega
        · simp only [hgc, false_and, decide_False, if_false] at ih ⊢
          simp only [Bool.false_eq_true, if_false] at ih ⊢
          split_ifs <;> omega
      · have ih := specSecondPass_markedCount c ts gs pool
        have hne1 : INCORRECT_L_SYMBOL ≠ CORRECT_LP_SYMBOL := by decide
        have hne2 : INCORRECT_L_SYMBOL ≠ CORRECT_L_SYMBOL := by decide
        simp only [markedCount] at ih ⊢
        simp only [specSecondPass, specPool, hgt, hmem, if_false, List.map_cons,
          List.zip_cons_cons, List.countP_cons, List.count_cons, Mark.symbol, beq_iff_eq]
        split_ifs <;> simp_all
        omega

/-- Testable property 2 of the specification holds of its two-pass
algorithm. -/
theorem specMarks_markedCount_le (target guess : List Char) (c : Char) :
    markedCount (specMarks target guess) guess c ≤ target.count c := by
  have := specSecondPass_markedCount c target guess (specPool target guess)
  unfold specMarks specScore
  omega

/-! ## Claims on the scoring done by `displayGame` -/

/-- C1, as stated, fails: with target CRANE and guess GEESE the code marks
all three E of the guess (`-`, `&`, `&`, `-`, `!`), where the two-pass
algorithm, whose only E is consumed by the exact match, gives `-`, `-`, `-`,
`-`, `!`. -/
theorem C1_counterexample_crane_geese :
    hintMarks guess_display_init ['C', 'R', 'A', 'N', 'E'] ['G', 'E', 'E', 'S', 'E'] 1 0 =
        .ok [['-'], ['&'], ['&'], ['-'], ['!']] ∧
      specMarks ['C', 'R', 'A', 'N', 'E'] ['G', 'E', 'E', 'S', 'E'] =
        [['-'], ['-'], ['-'], ['-'], ['!']] ∧
      hintMarks guess_display_init ['C', 'R', 'A', 'N', 'E'] ['G', 'E', 'E', 'S', 'E'] 1 0 ≠
        .ok (specMarks ['C', 'R', 'A', 'N', 'E'] ['G', 'E', 'E', 'S', 'E']) := by
  decide

/-- C1, amended: for every 5-letter target and every 5-letter guess such that
no letter that the guess has in the right place occurs again further right in
the target, the five marks that `displayGame` writes into a fresh hint row
equal the feedback of the two-pass consume-on-use algorithm exactly when no
letter of the target occurs more often in the guess than in the target. -/
theorem C1_displayGame_eq_specMarks (d : Display) (target input : Str) (h k : Nat)
    (hd : d.WF) (hh : h < ALLOWED_GUESSES * 2) (hk : k < ALLOWED_GUESSES * 2) (hkh : k ≠ h)
    (hfresh : d[h]? = some freshHintRow)
    (ht : target.length = 5) (hi : input.length = 5)
    (hslip : NoLaterRepeat target input) :
    hintMarks d target input h k = .ok (specMarks target input) ↔ NoExcess target input := by
  have hcode := hintMarks_eq d target input h k hd (by omega) (by omega) hh hk hkh hfresh
  constructor
  · intro heq c hcG hcT
    rw [hcode] at heq
    have heq' : codeMarks target input = specMarks target input := by
      injection heq
    have h1 := markedCount_codeMarks target input c ht hi
    rw [heq', if_pos hcT] at h1
    have h2 := specMarks_markedCount_le target input c
    omega
  · intro hexcess
    rw [hcode, codeMarks_eq_member target input ht hi hslip, specMarks,
      specScore_eq_member target input (by omega) hexcess]

/-- C1, amended, at target SPEED and guess ERASE in the first attempt of a
round: the guess has the two E and the S of the target, none in its place,
and both scorings give `&`, `-`, `-`, `&`, `&`. -/
theorem C1_displayGame_eq_specMarks_witness :
    NoLaterRepeat ['S', 'P', 'E', 'E', 'D'] ['E', 'R', 'A', 'S', 'E'] ∧
      NoExcess ['S', 'P', 'E', 'E', 'D'] ['E', 'R', 'A', 'S', 'E'] ∧
      hintMarks guess_display_init ['S', 'P', 'E', 'E', 'D'] ['E', 'R', 'A', 'S', 'E'] 1 0 =
        .ok (specMarks ['S', 'P', 'E', 'E', 'D'] ['E', 'R', 'A', 'S', 'E']) :=
  ⟨by decide, by decide,
    (C1_displayGame_eq_specMarks guess_display_init ['S', 'P', 'E', 'E', 'D']
      ['E', 'R', 'A', 'S', 'E'] 1 0 (by decide) (by decide) (by decide) (by decide) (by decide)
      (by decide) (by decide) (by decide)).mpr (by decide)⟩

/-- C2 fails on the code: scoring SPEED against itself leaves `&`, not `!`,
under the first E, because the iteration for the E at target position 3
overwrites the `!` written for position 2. -/
theorem C2_speed_against_itself :
    hintMarks guess_display_init ['S', 'P', 'E', 'E', 'D'] ['S', 'P', 'E', 'E', 'D'] 1 0 =
      .ok [['!'], ['!'], ['&'], ['!'], ['!']] := by
  decide

/-- C3, as stated, fails: with target CRANE and guess GEESE three positions
holding E are marked, and CRANE has one E. -/
theorem C3_counterexample_crane_geese :
    ∃ marks, hintMarks guess_display_init ['C', 'R', 'A', 'N', 'E']
        ['G', 'E', 'E', 'S', 'E'] 1 0 = .ok marks ∧
      ¬ markedCount marks ['G', 'E', 'E', 'S', 'E'] 'E' ≤
        List.count 'E' ['C', 'R', 'A', 'N', 'E'] :=
  ⟨[['-'], ['&'], ['&'], ['-'], ['!']], by decide, by decide⟩

/-- C3, amended: for every 5-letter target, every 5-letter guess and every
letter `c`, the number of positions `j` with `guess[j] == c` whose mark in the
hint row written by `displayGame` is `!` or `&` is the number of occurrences
of `c` in the guess when `c` occurs in the target, and zero when it does
not. -/
theorem C3_markedCount_displayGame (d : Display) (target input : Str) (h k : Nat) (c : Char)
    (hd : d.WF) (hh : h < ALLOWED_GUESSES * 2) (hk : k < ALLOWED_GUESSES * 2) (hkh : k ≠ h)
    (hfresh : d[h]? = some freshHintRow)
    (ht : target.length = 5) (hi : input.length = 5) :
    ∃ marks, hintMarks d target input h k = .ok marks ∧
      markedCount marks input c = if c ∈ target then input.count c else 0 :=
  ⟨codeMarks target input,
    hintMarks_eq d target input h k hd (by omega) (by omega) hh hk hkh hfresh,
    markedCount_codeMarks target input c ht hi⟩

/-- C3, amended, at target ABBEY, guess BABES and the letter B, in the third
attempt of a round. -/
theorem C3_markedCount_displayGame_witness :
    ∃ marks, hintMarks guess_display_init ['A', 'B', 'B', 'E', 'Y']
        ['B', 'A', 'B', 'E', 'S'] 5 4 = .ok marks ∧
      markedCount marks ['B', 'A', 'B', 'E', 'S'] 'B' =
        if 'B' ∈ ['A', 'B', 'B', 'E', 'Y'] then List.count 'B' ['B', 'A', 'B', 'E', 'S']
        else 0 :=
  C3_markedCount_displayGame guess_display_init ['A', 'B', 'B', 'E', 'Y']
    ['B', 'A', 'B', 'E', 'S'] 5 4 'B' (by decide) (by decide) (by decide) (by decide)
    (by decide) (by decide) (by decide)

/-- C4, as stated, fails: the last mark for guess ERASE against target SPEED
is not `!` (the guess ends in E, the target in D). -/
theorem C4_counterexample :
    hintMarks guess_display_init ['S', 'P', 'E', 'E', 'D'] ['E', 'R', 'A', 'S', 'E'] 1 0 ≠
      .ok [['&'], ['-'], ['-'], ['&'], ['!']] := by
  decide

/-- C4, amended: scoring guess ERASE against target SPEED on a fresh hint row
yields, in position order, `&`, `-`, `-`, `&`, `&`: PresentElsewhere, Absent,
Absent, PresentElsewhere, PresentElsewhere. -/
theorem C4_speed_erase (d : Display) (h k : Nat)
    (hd : d.WF) (hh : h < ALLOWED_GUESSES * 2) (hk : k < ALLOWED_GUESSES * 2) (hkh : k ≠ h)
    (hfresh : d[h]? = some freshHintRow) :
    hintMarks d ['S', 'P', 'E', 'E', 'D'] ['E', 'R', 'A', 'S', 'E'] h k =
      .ok [['&'], ['-'], ['-'], ['&'], ['&']] := by
  rw [hintMarks_eq d _ _ h k hd (by decide) (by decide) hh hk hkh hfresh]
  decide

/-- C4, amended, in the second attempt of a round. -/
theorem C4_speed_erase_witness :
    hintMarks guess_display_init ['S', 'P', 'E', 'E', 'D'] ['E', 'R', 'A', 'S', 'E'] 3 2 =
      .ok [['&'], ['-'], ['-'], ['&'], ['&']] :=
  C4_speed_erase guess_display_init 3 2 (by decide) (by decide) (by decide) (by decide)
    (by decide)

/-- C5, as stated, fails: the mark under the E of guess BABES against target
ABBEY is not `&` (both words have E at position 3). -/
theorem C5_counterexample :
    hintMarks guess_display_init ['A', 'B', 'B', 'E', 'Y'] ['B', 'A', 'B', 'E', 'S'] 1 0 ≠
      .ok [['&'], ['&'], ['!'], ['&'], ['-']] := by
  decide

/-- C5, amended: scoring guess BABES against target ABBEY on a fresh hint row
yields, in position order, `&`, `&`, `!`, `!`, `-`: PresentElsewhere,
PresentElsewhere, ExactMatch, ExactMatch, Absent. -/
theorem C5_abbey_babes (d : Display) (h k : Nat)
    (hd : d.WF) (hh : h < ALLOWED_GUESSES * 2) (hk : k < ALLOWED_GUESSES * 2) (hkh : k ≠ h)
    (hfresh : d[h]? = some freshHintRow) :
    hintMarks d ['A', 'B', 'B', 'E', 'Y'] ['B', 'A', 'B', 'E', 'S'] h k =
      .ok [['&'], ['&'], ['!'], ['!'], ['-']] := by
  rw [hintMarks_eq d _ _ h k hd (by decide) (by decide) hh hk hkh hfresh]
  decide

/-- C5, amended, in the sixth attempt of a round. -/
theorem C5_abbey_babes_witness :
    hintMarks guess_display_init ['A', 'B', 'B', 'E', 'Y'] ['B', 'A', 'B', 'E', 'S'] 11 10 =
      .ok [['&'], ['&'], ['!'], ['!'], ['-']] :=
  C5_abbey_babes guess_display_init 11 10 (by decide) (by decide) (by decide) (by decide)
    (by decide)


/-! ## The validation loop of `verifyInput` -/

theorem forUpTo_succ_ok {σ : Type} (body : Nat → σ → Run σ) (n : Nat) (s s' : σ)
    (h : forUpTo body (n + 1) s = .ok s') :
    ∃ s1, forUpTo body n s = .ok s1 ∧ body n s1 = .ok s' := by
  have h' : (forUpTo body n s >>= body n) = .ok s' := h
  cases hr : forUpTo body n s with
  | error e => rw [hr] at h'; cases h'
  | ok s1 => rw [hr] at h'; exact ⟨s1, rfl, h'⟩

theorem scan_forUpTo_ok (word_array : List Str) (input : Str) (found : Bool) :
    ∀ n, n ≤ word_array.length →
      forUpTo (fun i found =>
        match word_array[i]? with
        | some word => Except.ok (if input = word then true else found)
        | none => Except.error Fault.outOfRange) n found =
      .ok (found || decide (input ∈ word_array.take n))
  | 0, _ => by simp [forUpTo]
  | n + 1, hn => by
    have hlt : n < word_array.length := hn
    show (forUpTo _ n found >>= _) = _
    rw [scan_forUpTo_ok word_array input found n (Nat.le_of_lt hlt)]
    show (match word_array[n]? with
      | some word => Except.ok (if input = word then true else _)
      | none => Except.error Fault.outOfRange) = _
    have hmem : input ∈ word_array.take (n + 1) ↔
        input ∈ word_array.take n ∨ input = word_array[n] := by
      rw [List.take_succ, List.getElem?_eq_getElem hlt, List.mem_append]
      simp
    rw [List.getElem?_eq_getElem hlt]
    by_cases he : input = word_array[n]
    · have : input ∈ word_array.take (n + 1) := hmem.mpr (Or.inr he)
      simp only [if_pos he, this, decide_True, Bool.or_true]
    · by_cases hin : input ∈ word_array.take n
      · have : input ∈ word_array.take (n + 1) := hmem.mpr (Or.inl hin)
        simp only [if_neg he, this, hin, decide_True, Bool.or_true]
      · have : input ∉ word_array.take (n + 1) := fun hh => (hmem.mp hh).elim hin he
        simp only [if_neg he, this, hin, decide_False, Bool.or_false]

theorem scan_forUpTo_length (word_array : List Str) (input : Str) (found : Bool) :
    ∀ n b, forUpTo (fun i found =>
        match word_array[i]? with
        | some word => Except.ok (if input = word then true else found)
        | none => Except.error Fault.outOfRange) n found = .ok b → n ≤ word_array.length
  | 0, _, _ => Nat.zero_le _
  | n + 1, b, h => by
    obtain ⟨b1, _, h2⟩ := forUpTo_succ_ok _ n found b h
    rcases Nat.lt_or_ge n word_array.length with hlt | hge
    · exact hlt
    · simp only [List.getElem?_eq_none hge] at h2
      cases h2

/-- The scan succeeds when the array has its `TOTAL_WORDS` slots, and then
tells whether the input is one of them. -/
theorem scanWordList_eq (word_array : List Str) (input : Str) (found : Bool)
    (hlen : TOTAL_WORDS ≤ word_array.length) :
    scanWordList word_array input found =
      .ok (found || decide (input ∈ vocabulary word_array)) :=
  scan_forUpTo_ok word_array input found TOTAL_WORDS hlen

theorem scanWordList_ok (word_array : List Str) (input : Str) (found b : Bool)
    (h : scanWordList word_array input found = .ok b) :
    TOTAL_WORDS ≤ word_array.length ∧ b = (found || decide (input ∈ vocabulary word_array)) := by
  have hlen := scan_forUpTo_length word_array input found TOTAL_WORDS b h
  rw [scanWordList_eq word_array input found hlen] at h
  cases h
  exact ⟨hlen, rfl⟩

theorem State.SameProgress.refl (s : State) : s.SameProgress s := ⟨rfl, rfl, rfl, rfl⟩

theorem State.SameProgress.trans {s1 s2 s3 : State} (h1 : s1.SameProgress s2)
    (h2 : s2.SameProgress s3) : s1.SameProgress s3 :=
  ⟨h2.1.trans h1.1, h2.2.1.trans h1.2.1, h2.2.2.1.trans h1.2.2.1, h2.2.2.2.trans h1.2.2.2⟩

/-- One pass through the body of the validation loop, spelled out. -/
theorem validateBody_eq (word_array : List Str) (s : State)
    (hlen : TOTAL_WORDS ≤ word_array.length) :
    validateBody word_array s =
      if (s.exists_in_word_list || decide (s.input ∈ vocabulary word_array)) = false then
        .ok (((({ s with
            exists_in_word_list := false
            cin := Cin.ignore (Cin.clear s.cin) 256 '\n' } : State).print
          "That word doesn't belong in the word list.\n\n").print "Your word: ").readInput.print
            "\n")
      else .ok { s with exists_in_word_list := true } := by
  unfold validateBody
  rw [scanWordList_eq word_array s.input s.exists_in_word_list hlen]
  show (if (s.exists_in_word_list || decide (s.input ∈ vocabulary word_array)) = false then _
    else _) = _
  by_cases hb : (s.exists_in_word_list || decide (s.input ∈ vocabulary word_array)) = false
  · rw [if_pos hb, if_pos hb]
    simp only [hb, State.print, State.readInput]
    rfl
  · rw [if_neg hb, if_neg hb]
    simp only [Bool.not_eq_false] at hb
    simp only [hb]
    rfl

theorem validateBody_ok (word_array : List Str) (s s' : State)
    (h : validateBody word_array s = .ok s') : TOTAL_WORDS ≤ word_array.length := by
  unfold validateBody at h
  cases hscan : scanWordList word_array s.input s.exists_in_word_list with
  | error e => rw [hscan] at h; cases h
  | ok b => exact (scanWordList_ok _ _ _ _ hscan).1

theorem validateBody_spec (word_array : List Str) (s s' : State)
    (hsound : s.FlagSound word_array) (h : validateBody word_array s = .ok s') :
    s.SameProgress s' ∧ s'.FlagSound word_array ∧
      (s.input ∉ vocabulary word_array → s'.exists_in_word_list = false) ∧
      (s.input ∈ vocabulary word_array →
        s'.exists_in_word_list = true ∧ s'.input = s.input ∧ s'.cin = s.cin) := by
  have hlen := validateBody_ok word_array s s' h
  rw [validateBody_eq word_array s hlen] at h
  by_cases hin : s.input ∈ vocabulary word_array
  · have hb : ¬ (s.exists_in_word_list || decide (s.input ∈ vocabulary word_array)) = false := by
      simp [hin]
    rw [if_neg hb] at h
    cases h
    exact ⟨⟨rfl, rfl, rfl, rfl⟩, fun _ => hin, fun hc => absurd hin hc, fun _ => ⟨rfl, rfl, rfl⟩⟩
  · have hex : s.exists_in_word_list = false := by
      cases he : s.exists_in_word_list with
      | false => rfl
      | true => exact absurd (hsound he) hin
    have hb : (s.exists_in_word_list || decide (s.input ∈ vocabulary word_array)) = false := by
      simp [hin, hex]
    rw [if_pos hb] at h
    cases h
    refine ⟨⟨rfl, rfl, rfl, rfl⟩, ?_, fun _ => rfl, fun hc => absurd hc hin⟩
    intro hc
    simp [State.print, State.readInput] at hc

theorem validateLoop_spec (word_array : List Str) :
    ∀ (fuel : Nat) (s s' : State), s.FlagSound word_array →
      validateLoop word_array fuel s = .ok s' →
      s.SameProgress s' ∧ s'.input ∈ vocabulary word_array ∧ s'.input.length = 5 ∧
        s'.cin.fail = false
  | 0, _, _, _, h => by cases h
  | fuel + 1, s, s', hsound, h => by
    have h' : (validateBody word_array s >>= fun s1 =>
        if validateCond s1 then validateLoop word_array fuel s1 else pure s1) = .ok s' := h
    cases hb : validateBody word_array s with
    | error e => rw [hb] at h'; cases h'
    | ok s1 =>
      rw [hb] at h'
      have hspec := validateBody_spec word_array s s1 hsound hb
      have h'' : (if validateCond s1 then validateLoop word_array fuel s1 else pure s1) =
          .ok s' := h'
      by_cases hc : validateCond s1 = true
      · rw [if_pos hc] at h''
        have ih := validateLoop_spec word_array fuel s1 s' hspec.2.1 h''
        exact ⟨hspec.1.trans ih.1, ih.2⟩
      · rw [if_neg hc] at h''
        cases h''
        simp only [validateCond, Bool.or_eq_true, beq_iff_eq, decide_eq_true_eq, not_or,
          Bool.not_eq_true, not_lt] at hc
        refine ⟨hspec.1, ?_, by omega, hc.1.1⟩
        apply hspec.2.1
        simpa using hc.1.2

/-! ## Reading words from lines of text -/

theorem takeWhile_word (w tail : List Char) (hw : ∀ c ∈ w, isspace c = false) :
    (w ++ '\n' :: tail).takeWhile (fun x => !isspace x) = w := by
  induction w with
  | nil => simp [isspace]
  | cons c w ih =>
    have hc : isspace c = false := hw c (List.mem_cons_self _ _)
    have := ih (fun x hx => hw x (List.mem_cons_of_mem _ hx))
    simp [hc, this]

theorem dropWhile_word (w tail : List Char) (hw : ∀ c ∈ w, isspace c = false) :
    (w ++ '\n' :: tail).dropWhile (fun x => !isspace x) = '\n' :: tail := by
  induction w with
  | nil => simp [isspace]
  | cons c w ih =>
    have hc : isspace c = false := hw c (List.mem_cons_self _ _)
    have := ih (fun x hx => hw x (List.mem_cons_of_mem _ hx))
    simp [hc, this]

/-- Extraction of a word that a newline follows, after white space `sp`. -/
theorem Cin.readWord_word (sp w tail : List Char) (input : Str)
    (hsp : ∀ c ∈ sp, isspace c = true) (hw : Typeable w) :
    (Cin.ofText (sp ++ (w ++ '\n' :: tail))).readWord input = (Cin.ofText ('\n' :: tail), w) := by
  obtain ⟨hne, hchars⟩ := hw
  cases w with
  | nil => exact absurd rfl hne
  | cons c w =>
    have hc : isspace c = false := hchars c (List.mem_cons_self _ _)
    have hw' : ∀ x ∈ w, isspace x = false := fun x hx => hchars x (List.mem_cons_of_mem _ hx)
    have hdrop : (sp ++ (c :: w ++ '\n' :: tail)).dropWhile isspace = c :: (w ++ '\n' :: tail) := by
      rw [List.dropWhile_append_of_pos hsp]
      simp [hc]
    unfold Cin.readWord Cin.ofText
    simp only [Bool.or_self, Bool.false_eq_true, if_false, hdrop, takeWhile_word w tail hw',
      dropWhile_word w tail hw']
    rfl

/-- After `clear`, `ignore(256, '\n')` drops the newline that follows the word
just read. -/
theorem Cin.ignore_newline (cin : Cin) (tail : List Char) (h : cin.buf = '\n' :: tail) :
    (cin.clear.ignore 256 '\n') = Cin.ofText tail := by
  simp [Cin.ignore, Cin.clear, h, ignoreChars, Cin.ofText]

/-! ## Accepting a guess typed on lines of one word each -/

theorem vocabulary_eq (word_array : List Str) (hlen : word_array.length = TOTAL_WORDS) :
    vocabulary word_array = word_array := by
  unfold vocabulary
  exact List.take_of_length_le (Nat.le_of_eq hlen)

/-- The validation loop on lines of text: the words `rs` that are not in the
array are turned down one by one and the word `g` of the array, of five
letters, is accepted. The current input is the first of `rs ++ [g]`. -/
theorem validateLoop_lines (word_array : List Str) (hlen : word_array.length = TOTAL_WORDS)
    (g : Str) (tail : List Char) (hg : g ∈ word_array) (hg5 : g.length = 5)
    (hgt : Typeable g) :
    ∀ (rs : List Str) (fuel : Nat) (s : State),
      (∀ r ∈ rs, Typeable r ∧ r ∉ word_array) → rs.length + 1 ≤ fuel →
      s.exists_in_word_list = false →
      s.input = (rs ++ [g]).head! →
      s.cin = Cin.ofText ('\n' :: (linesText ((rs ++ [g]).tail) ++ tail)) →
      ∃ s', validateLoop word_array fuel s = .ok s' ∧ s.SameProgress s' ∧ s'.input = g ∧
        s'.cin = Cin.ofText ('\n' :: tail)
  | _, 0, _, _, hf, _, _, _ => by omega
  | [], fuel + 1, s, _, _, hex, hin, hcin => by
    have hin' : s.input = g := hin
    have hcin' : s.cin = Cin.ofText ('\n' :: tail) := by simpa [linesText] using hcin
    refine ⟨{ s with exists_in_word_list := true }, ?_, ⟨rfl, rfl, rfl, rfl⟩, hin', hcin'⟩
    show (validateBody word_array s >>= fun s1 =>
        if validateCond s1 then validateLoop word_array fuel s1 else pure s1) = _
    rw [validateBody_eq word_array s (Nat.le_of_eq hlen.symm)]
    have hb : ¬ (s.exists_in_word_list || decide (s.input ∈ vocabulary word_array)) = false := by
      rw [vocabulary_eq word_array hlen, hin']
      simp [hg]
    rw [if_neg hb]
    have hc : validateCond { s with exists_in_word_list := true } = false := by
      simp [validateCond, Cin.fail, hcin', Cin.ofText, hin', hg5]
    show (if validateCond { s with exists_in_word_list := true } then _ else _) = _
    rw [hc]
    rfl
  | r :: rs, fuel + 1, s, hrs, hf, hex, hin, hcin => by
    have hin' : s.input = r := hin
    obtain ⟨hrt, hrw⟩ := hrs r (List.mem_cons_self _ _)
    have hb : (s.exists_in_word_list || decide (s.input ∈ vocabulary word_array)) = false := by
      rw [vocabulary_eq word_array hlen, hin', hex]
      simp [hrw]
    -- the word that the loop reads next
    have hnext : ∃ w rest', Typeable w ∧ (rs ++ [g]) = w :: rest' ∧
        w = (rs ++ [g]).head! := by
      cases rs with
      | nil => exact ⟨g, [], hgt, rfl, rfl⟩
      | cons r' rs' =>
        exact ⟨r', rs' ++ [g], (hrs r' (by simp)).1, rfl, rfl⟩
    obtain ⟨w, rest', hwt, hsplit, hhead⟩ := hnext
    have hcin' : s.cin.buf = '\n' :: (w ++ '\n' :: (linesText rest' ++ tail)) := by
      rw [hcin]
      simp [Cin.ofText, hsplit, linesText]
    have hign := Cin.ignore_newline s.cin _ hcin'
    have hread := Cin.readWord_word [] w (linesText rest' ++ tail) s.input (by simp) hwt
    simp only [List.nil_append] at hread
    let s1 : State := ((({ s with
            exists_in_word_list := false
            cin := Cin.ignore (Cin.clear s.cin) 256 '\n' } : State).print
          "That word doesn't belong in the word list.\n\n").print "Your word: ").readInput.print
            "\n"
    have hs1 : validateBody word_array s = .ok s1 := by
      rw [validateBody_eq word_array s (Nat.le_of_eq hlen.symm), if_pos hb]
    have hs1in : s1.input = w := by
      show (Cin.readWord (Cin.ignore (Cin.clear s.cin) 256 '\n') s.input).2 = w
      rw [hign, hread]
    have hs1cin : s1.cin = Cin.ofText ('\n' :: (linesText rest' ++ tail)) := by
      show (Cin.readWord (Cin.ignore (Cin.clear s.cin) 256 '\n') s.input).1 = _
      rw [hign, hread]
    have hs1ex : s1.exists_in_word_list = false := rfl
    have hc : validateCond s1 = true := by
      simp [validateCond, hs1ex]
    have ih := validateLoop_lines word_array hlen g tail hg hg5 hgt rs fuel s1
      (fun x hx => hrs x (List.mem_cons_of_mem _ hx)) (by simp at hf; omega) hs1ex
      (by rw [hs1in, hhead]) (by rw [hs1cin, hsplit]; rfl)
    obtain ⟨s', hrun, hsame, hres⟩ := ih
    refine ⟨s', ?_, State.SameProgress.trans ⟨rfl, rfl, rfl, rfl⟩ hsame, hres⟩
    show (validateBody word_array s >>= fun s1 =>
        if validateCond s1 then validateLoop word_array fuel s1 else pure s1) = _
    rw [hs1]
    show (if validateCond s1 then _ else _) = _
    rw [hc]
    exact hrun

/-! ## Recording an accepted guess -/

theorem linesText_append (a b : List Str) :
    linesText (a ++ b) = linesText a ++ linesText b := by
  induction a with
  | nil => rfl
  | cons w a ih => simp [linesText, ih]

theorem acceptGuess_lines (word_array : List Str) (hlen : word_array.length = TOTAL_WORDS)
    (g : Str) (tail sp : List Char) (hg : g ∈ word_array) (hg5 : g.length = 5)
    (hgt : Typeable g) (hsp : ∀ c ∈ sp, isspace c = true)
    (rs : List Str) (fuel : Nat) (s : State)
    (hrs : ∀ r ∈ rs, Typeable r ∧ r ∉ word_array) (hf : rs.length + 1 ≤ fuel)
    (hcin : s.cin = Cin.ofText (sp ++ (linesText (rs ++ [g]) ++ tail))) :
    ∃ s', acceptGuess word_array fuel s = .ok s' ∧ s.SameProgress s' ∧ s'.input = g ∧
      s'.cin = Cin.ofText ('\n' :: tail) := by
  have hnext : ∃ w rest', Typeable w ∧ (rs ++ [g]) = w :: rest' := by
    cases rs with
    | nil => exact ⟨g, [], hgt, rfl⟩
    | cons r' rs' => exact ⟨r', rs' ++ [g], (hrs r' (by simp)).1, rfl⟩
  obtain ⟨w, rest', hwt, hsplit⟩ := hnext
  have hread := Cin.readWord_word sp w (linesText rest' ++ tail) s.input hsp hwt
  have hbuf : s.cin = Cin.ofText (sp ++ (w ++ '\n' :: (linesText rest' ++ tail))) := by
    rw [hcin, hsplit]
    simp [linesText]
  let s1 : State := { (((((s.print "What word would you like to guess?\n").print
      ("Guesses left: " ++ toString ((ALLOWED_GUESSES : Int) - (s.number_of_guesses : Int)) ++
        "/6\n")).print "\nYour word: ").readInput).print "\n") with
      exists_in_word_list := false }
  have hs1in : s1.input = w := by
    show (Cin.readWord s.cin s.input).2 = w
    rw [hbuf, hread]
  have hs1cin : s1.cin = Cin.ofText ('\n' :: (linesText rest' ++ tail)) := by
    show (Cin.readWord s.cin s.input).1 = _
    rw [hbuf, hread]
  obtain ⟨s', hrun, hsame, hres⟩ := validateLoop_lines word_array hlen g tail hg hg5 hgt rs fuel
    s1 hrs hf rfl (by rw [hs1in, hsplit]; rfl) (by rw [hs1cin, hsplit]; rfl)
  exact ⟨s', hrun, State.SameProgress.trans ⟨rfl, rfl, rfl, rfl⟩ hsame, hres⟩

theorem acceptGuess_spec (word_array : List Str) (fuel : Nat) (s s' : State)
    (h : acceptGuess word_array fuel s = .ok s') :
    s.SameProgress s' ∧ s'.input ∈ vocabulary word_array ∧ s'.input.length = 5 ∧
      s'.cin.fail = false := by
  unfold acceptGuess at h
  have := validateLoop_spec word_array fuel _ s' (fun hc => by cases hc) h
  exact ⟨State.SameProgress.trans ⟨rfl, rfl, rfl, rfl⟩ this.1, this.2⟩

theorem hintLoops_ok_length (target input : Str) (h : Nat) (d d' : Display)
    (hok : hintLoops target input h d = .ok d') : 4 ≤ target.length := by
  unfold hintLoops at hok
  obtain ⟨d4, _, h4⟩ := forUpTo_succ_ok _ 4 d d' hok
  obtain ⟨_, h44, _⟩ := forUpTo_succ_ok _ 4 d4 d' h4
  obtain ⟨_, h43, _⟩ := forUpTo_succ_ok _ 3 d4 _ h44
  obtain ⟨_, h42, _⟩ := forUpTo_succ_ok _ 2 d4 _ h43
  obtain ⟨_, h41, _⟩ := forUpTo_succ_ok _ 1 d4 _ h42
  obtain ⟨d0, h40, hstep⟩ := forUpTo_succ_ok _ 0 d4 _ h41
  unfold hintStep at hstep
  by_contra hlt
  have hnone : strAt target 4 = .error .outOfRange := by
    unfold strAt
    rw [List.getElem?_eq_none (by omega)]
    simp only
    rw [if_neg (by omega)]
  rw [hnone] at hstep
  cases hin : strAt input 0 with
  | error e => rw [hin] at hstep; cases hstep
  | ok a => rw [hin] at hstep; cases hstep

theorem displayGame_ok_length (d : Display) (row_size : Nat) (target input : Str) (h k : Nat)
    (r : Display × Str) (hok : displayGame d row_size target input h k = .ok r) :
    4 ≤ target.length := by
  unfold displayGame at hok
  cases hl : hintLoops target input h d with
  | error e => rw [hl] at hok; cases hok
  | ok d1 => exact hintLoops_ok_length target input h d d1 hl

theorem transcriptDisplay_step (target g : Str) (gs : List Str) (hk : gs.length < 6) :
    displayGamePure (transcriptDisplay target gs) target g (2 * gs.length + 1) (2 * gs.length) =
      transcriptDisplay target (gs ++ [g]) := by
  match gs, hk with
  | [], _ => rfl
  | [_], _ => rfl
  | [_, _], _ => rfl
  | [_, _, _], _ => rfl
  | [_, _, _, _], _ => rfl
  | [_, _, _, _, _], _ => rfl

theorem transcriptDisplay_WF (target : Str) (gs : List Str) (hk : gs.length ≤ 6) :
    (transcriptDisplay target gs).WF := by
  match gs, hk with
  | [], _ => exact ⟨rfl, by simp [transcriptDisplay, transcriptRows, guess_display_init]⟩
  | [_], _ => exact ⟨rfl, by simp [transcriptDisplay, transcriptRows, guess_display_init, codeMarks]⟩
  | [_, _], _ => exact ⟨rfl, by simp [transcriptDisplay, transcriptRows, guess_display_init, codeMarks]⟩
  | [_, _, _], _ => exact ⟨rfl, by simp [transcriptDisplay, transcriptRows, guess_display_init, codeMarks]⟩
  | [_, _, _, _], _ => exact ⟨rfl, by simp [transcriptDisplay, transcriptRows, guess_display_init, codeMarks]⟩
  | [_, _, _, _, _], _ => exact ⟨rfl, by simp [transcriptDisplay, transcriptRows, guess_display_init, codeMarks]⟩
  | [_, _, _, _, _, _], _ => exact ⟨rfl, by simp [transcriptDisplay, transcriptRows, guess_display_init, codeMarks]⟩

/-- Recording the accepted guess `s.input` extends the transcript by it. -/
theorem recordGuess_inv (target : Str) (gs : List Str) (s : State)
    (hinv : RoundInv target gs s) (hk : gs.length < 6) (hin : s.input.length = 5)
    (ht : 4 ≤ target.length) :
    ∃ s', recordGuess target s = .ok s' ∧ RoundInv target (gs ++ [s.input]) s' ∧
      s'.input = s.input ∧ s'.cin = s.cin := by
  obtain ⟨hn, hii, hhi, hd⟩ := hinv
  have hwf : s.guess_display.WF := by rw [hd]; exact transcriptDisplay_WF target gs (by omega)
  have hdg := (displayGame_eq s.guess_display (ALLOWED_GUESSES * 2) target s.input
    s.hint_display_index s.input_display_index hwf ht (by omega)
    (by rw [hhi]; simp only [ALLOWED_GUESSES]; omega)
    (by rw [hii]; simp only [ALLOWED_GUESSES]; omega)).1
  refine ⟨{ s with
      number_of_guesses := s.number_of_guesses + 1
      guess_display := displayGamePure s.guess_display target s.input s.hint_display_index
        s.input_display_index
      cout := s.cout ++ printPure (displayGamePure s.guess_display target s.input
        s.hint_display_index s.input_display_index)
      input_display_index := s.input_display_index + 2
      hint_display_index := s.hint_display_index + 2 }, ?_, ?_, rfl, rfl⟩
  · unfold recordGuess
    show (displayGame s.guess_display (ALLOWED_GUESSES * 2) target s.input
      s.hint_display_index s.input_display_index >>= _) = _
    rw [hdg]
    rfl
  · refine ⟨?_, ?_, ?_, ?_⟩
    · simp [hn]
    · simp [hii]; omega
    · simp [hhi]; omega
    · show displayGamePure s.guess_display target s.input s.hint_display_index
        s.input_display_index = _
      rw [hd, hhi, hii]
      exact transcriptDisplay_step target s.input gs hk

/-! ## The loop of the round -/

theorem filter_length_zero {α : Type} (p : α → Bool) (l : List α)
    (h : (l.filter p).length = 0) : ∀ r ∈ l, p r = false := by
  intro r hr
  have hnil : l.filter p = [] := List.length_eq_zero.mp h
  cases hp : p r with
  | false => rfl
  | true =>
    have : r ∈ l.filter p := List.mem_filter.mpr ⟨hr, hp⟩
    rw [hnil] at this
    cases this

theorem filter_length_succ {α : Type} (p : α → Bool) (n : Nat) :
    ∀ l : List α, (l.filter p).length = n + 1 →
      ∃ rs a l', l = rs ++ a :: l' ∧ (∀ r ∈ rs, p r = false) ∧ p a = true ∧
        (l'.filter p).length = n
  | [], h => by simp at h
  | x :: l, h => by
    cases hp : p x with
    | true =>
      rw [List.filter_cons_of_pos hp] at h
      exact ⟨[], x, l, rfl, by simp, hp, by simpa using h⟩
    | false =>
      rw [List.filter_cons_of_neg (by simp [hp])] at h
      obtain ⟨rs, a, l', hl, hrs, ha, hn⟩ := filter_length_succ p n l h
      refine ⟨x :: rs, a, l', by rw [hl]; rfl, ?_, ha, hn⟩
      intro r hr
      rcases List.mem_cons.mp hr with h1 | h1
      · rw [h1]; exact hp
      · exact hrs r h1

/-- One pass through the body of the loop on lines of text: the words `rs`
are turned down and the guess `g` is accepted and recorded. -/
theorem roundBody_lines (target : Str) (word_array : List Str)
    (hlen : word_array.length = TOTAL_WORDS) (ht : 4 ≤ target.length)
    (g : Str) (tail sp : List Char) (hg : g ∈ word_array) (hg5 : g.length = 5)
    (hgt : Typeable g) (hsp : ∀ c ∈ sp, isspace c = true)
    (rs : List Str) (fuel : Nat) (s : State) (acc : List Str)
    (hrs : ∀ r ∈ rs, Typeable r ∧ r ∉ word_array) (hf : rs.length + 1 ≤ fuel)
    (hcin : s.cin = Cin.ofText (sp ++ (linesText (rs ++ [g]) ++ tail)))
    (hinv : RoundInv target acc s) (hk : acc.length < 6) :
    ∃ s', roundBody target word_array fuel s = .ok s' ∧ RoundInv target (acc ++ [g]) s' ∧
      s'.input = g ∧ s'.cin = Cin.ofText ('\n' :: tail) := by
  obtain ⟨s1, hrun1, hsame, hin1, hcin1⟩ := acceptGuess_lines word_array hlen g tail sp hg hg5
    hgt hsp rs fuel s hrs hf hcin
  have hinv1 : RoundInv target acc s1 :=
    ⟨hsame.1.trans hinv.1, hsame.2.2.2.trans hinv.2.1, hsame.2.2.1.trans hinv.2.2.1,
      hsame.2.1.trans hinv.2.2.2⟩
  obtain ⟨s', hrun2, hinv2, hin2, hcin2⟩ := recordGuess_inv target acc s1 hinv1 hk
    (by rw [hin1]; exact hg5) ht
  refine ⟨s', ?_, by rw [← hin1]; exact hinv2, hin2.trans hin1, hcin2.trans hcin1⟩
  unfold roundBody
  rw [hrun1]
  exact hrun2

/-- The loop of the round on lines of text: it runs until the guess `g`, the
first accepted guess that is the target or the sixth. -/
theorem roundLoop_lines (target : Str) (word_array : List Str)
    (hlen : word_array.length = TOTAL_WORDS) (ht : 4 ≤ target.length)
    (g : Str) (tail : List Char) (hg : g ∈ word_array) (hg5 : g.length = 5)
    (hgt : Typeable g) :
    ∀ (n : Nat) (pre acc : List Str) (s : State) (fuel : Nat) (sp : List Char),
      (pre.filter (fun w => decide (w ∈ word_array))).length = n →
      RoundInv target acc s → acc.length + n < 6 →
      (∀ w ∈ pre, Typeable w ∧ (w ∈ word_array → w.length = 5 ∧ w ≠ target)) →
      (g = target ∨ acc.length + n = 5) →
      (∀ c ∈ sp, isspace c = true) →
      s.cin = Cin.ofText (sp ++ (linesText (pre ++ [g]) ++ tail)) →
      pre.length + n + 2 ≤ fuel →
      ∃ s', roundLoop target word_array fuel s = .ok s' ∧
        RoundInv target (acc ++ pre.filter (fun w => decide (w ∈ word_array)) ++ [g]) s' ∧
        s'.input = g ∧ s'.cin = Cin.ofText ('\n' :: tail)
  | _, _, _, _, 0, _, _, _, _, _, _, _, _, hf => by omega
  | 0, pre, acc, s, fuel + 1, sp, hn, hinv, hk, hpre, hend, hsp, hcin, hf => by
    have hrej := filter_length_zero _ pre hn
    have hnil : pre.filter (fun w => decide (w ∈ word_array)) = [] := List.length_eq_zero.mp hn
    obtain ⟨s', hrun, hinv', hin', hcin'⟩ := roundBody_lines target word_array hlen ht g tail sp
      hg hg5 hgt hsp pre fuel s acc
      (fun r hr => ⟨(hpre r hr).1, by simpa using hrej r hr⟩) (by omega) hcin hinv (by omega)
    refine ⟨s', ?_, by rw [hnil, List.append_nil]; exact hinv', hin', hcin'⟩
    show (roundBody target word_array fuel s >>= fun s1 =>
        if roundCond target s1 then roundLoop target word_array fuel s1 else pure s1) = _
    rw [hrun]
    have hc : roundCond target s' = false := by
      unfold roundCond
      rw [hinv'.1, hin']
      rcases hend with h1 | h1
      · simp [h1]
      · simp [ALLOWED_GUESSES]; omega
    show (if roundCond target s' then _ else _) = _
    rw [hc]
    rfl
  | n + 1, pre, acc, s, fuel + 1, sp, hn, hinv, hk, hpre, hend, hsp, hcin, hf => by
    obtain ⟨rs, a, pre', hsplit, hrs, ha, hn'⟩ := filter_length_succ _ n pre hn
    have ha' : a ∈ word_array := by simpa using ha
    have hamem : a ∈ pre := by rw [hsplit]; simp
    obtain ⟨hat, hav⟩ := hpre a hamem
    obtain ⟨ha5, hane⟩ := hav ha'
    have hlenpre : pre.length = rs.length + 1 + pre'.length := by
      rw [hsplit]; simp; omega
    have hcin1 : s.cin = Cin.ofText (sp ++ (linesText (rs ++ [a]) ++
        (linesText (pre' ++ [g]) ++ tail))) := by
      rw [hcin, hsplit]
      simp [linesText_append, linesText]
    obtain ⟨s1, hrun, hinv1, hin1, hcin1'⟩ := roundBody_lines target word_array hlen ht a
      (linesText (pre' ++ [g]) ++ tail) sp ha' ha5 hat hsp rs fuel s acc
      (fun r hr => ⟨(hpre r (by rw [hsplit]; simp [hr])).1, by simpa using hrs r hr⟩)
      (by omega) hcin1 hinv (by omega)
    obtain ⟨s', hrun', hinv', hres⟩ := roundLoop_lines target word_array hlen ht g tail hg hg5
      hgt n pre' (acc ++ [a]) s1 fuel ['\n'] hn' hinv1 (by simp; omega)
      (fun w hw => hpre w (by rw [hsplit]; simp [hw]))
      (by rcases hend with h1 | h1
          · exact Or.inl h1
          · right; simp; omega)
      (by simp [isspace]) (by rw [hcin1']; rfl) (by omega)
    have hfilter : pre.filter (fun w => decide (w ∈ word_array)) =
        a :: pre'.filter (fun w => decide (w ∈ word_array)) := by
      have hnil : rs.filter (fun w => decide (w ∈ word_array)) = [] :=
        List.filter_eq_nil_iff.mpr (fun r hr => by simpa using hrs r hr)
      rw [hsplit, List.filter_append, hnil, List.nil_append, List.filter_cons]
      simp only [ha, if_true]
    refine ⟨s', ?_, by rw [hfilter]; simpa using hinv', hres⟩
    show (roundBody target word_array fuel s >>= fun s1 =>
        if roundCond target s1 then roundLoop target word_array fuel s1 else pure s1) = _
    rw [hrun]
    have hc : roundCond target s1 = true := by
      unfold roundCond
      rw [hinv1.1, hin1]
      simp [ALLOWED_GUESSES, hane]
      omega
    show (if roundCond target s1 then _ else _) = _
    rw [hc]
    exact hrun'

theorem RoundInv_init (target input : Str) (cin : Cin) :
    RoundInv target [] (initState input cin) := ⟨rfl, rfl, rfl, rfl⟩

theorem recordGuess_ok (target : Str) (gs : List Str) (s s' : State)
    (hinv : RoundInv target gs s) (hk : gs.length < 6) (hin : s.input.length = 5)
    (h : recordGuess target s = .ok s') :
    RoundInv target (gs ++ [s.input]) s' ∧ s'.input = s.input ∧ s'.cin = s.cin := by
  have ht : 4 ≤ target.length := by
    unfold recordGuess at h
    cases hd : displayGame s.guess_display (ALLOWED_GUESSES * 2) target s.input
        s.hint_display_index s.input_display_index with
    | error e =>
      have h' : (displayGame s.guess_display (ALLOWED_GUESSES * 2) target s.input
        s.hint_display_index s.input_display_index >>= _) = Except.ok s' := h
      rw [hd] at h'
      cases h'
    | ok r => exact displayGame_ok_length _ _ _ _ _ _ r hd
  obtain ⟨s'', hrun, hres⟩ := recordGuess_inv target gs s hinv hk hin ht
  rw [hrun] at h
  cases h
  exact hres

theorem roundBody_ok (target : Str) (word_array : List Str) (fuel : Nat) (gs : List Str)
    (s s' : State) (hinv : RoundInv target gs s) (hk : gs.length < 6)
    (h : roundBody target word_array fuel s = .ok s') :
    RoundInv target (gs ++ [s'.input]) s' ∧ s'.input ∈ vocabulary word_array ∧
      s'.input.length = 5 := by
  unfold roundBody at h
  cases ha : acceptGuess word_array fuel s with
  | error e => rw [ha] at h; cases h
  | ok s1 =>
    rw [ha] at h
    have h' : recordGuess target s1 = .ok s' := h
    obtain ⟨hsame, hmem, h5, _⟩ := acceptGuess_spec word_array fuel s s1 ha
    have hinv1 : RoundInv target gs s1 :=
      ⟨hsame.1.trans hinv.1, hsame.2.2.2.trans hinv.2.1, hsame.2.2.1.trans hinv.2.2.1,
        hsame.2.1.trans hinv.2.2.2⟩
    obtain ⟨hinv', hin', _⟩ := recordGuess_ok target gs s1 s' hinv1 hk h5 h'
    rw [hin']
    exact ⟨hinv', hmem, h5⟩

/-- Every state of a round records the guesses accepted so far, and they are
at most six words of the array, of five letters each. -/
theorem Round.inv (target : Str) (word_array : List Str) (input : Str) (cin : Cin)
    (gs : List Str) (s : State) (h : Round target word_array (initState input cin) gs s) :
    RoundInv target gs s ∧ gs.length ≤ 6 ∧
      ∀ g ∈ gs, g ∈ vocabulary word_array ∧ g.length = 5 := by
  induction h with
  | start => exact ⟨RoundInv_init target input cin, by simp, by simp⟩
  | pass gs s s' fuel _ hcond hbody ih =>
    obtain ⟨hinv, _, hall⟩ := ih
    have hk : gs.length < 6 := by
      rcases hcond with h0 | hc
      · rw [h0]; simp
      · unfold roundCond at hc
        simp only [Bool.and_eq_true, decide_eq_true_eq] at hc
        rw [← hinv.1]
        exact hc.1
    obtain ⟨hinv', hmem, h5⟩ := roundBody_ok target word_array fuel gs s s' hinv hk hbody
    refine ⟨hinv', by simp; omega, ?_⟩
    intro g hg
    rcases List.mem_append.mp hg with h1 | h1
    · exact hall g h1
    · rw [List.mem_singleton.mp h1]; exact ⟨hmem, h5⟩

/-- The loop of the round passes through states of the round only. -/
theorem roundLoop_round (target : Str) (word_array : List Str) (s0 : State) :
    ∀ (fuel : Nat) (gs : List Str) (s s' : State), Round target word_array s0 gs s →
      (gs = [] ∨ roundCond target s = true) →
      roundLoop target word_array fuel s = .ok s' →
      ∃ gs', Round target word_array s0 gs' s' ∧ gs' ≠ [] ∧ roundCond target s' = false
  | 0, _, _, _, _, _, h => by cases h
  | fuel + 1, gs, s, s', hr, hcond, h => by
    have h' : (roundBody target word_array fuel s >>= fun s1 =>
        if roundCond target s1 then roundLoop target word_array fuel s1 else pure s1) =
        .ok s' := h
    cases hb : roundBody target word_array fuel s with
    | error e => rw [hb] at h'; cases h'
    | ok s1 =>
      rw [hb] at h'
      have hr1 := Round.pass gs s s1 fuel hr hcond hb
      have h'' : (if roundCond target s1 then roundLoop target word_array fuel s1
          else pure s1) = .ok s' := h'
      by_cases hc : roundCond target s1 = true
      · rw [if_pos hc] at h''
        exact roundLoop_round target word_array s0 fuel _ s1 s' hr1 (Or.inr hc) h''
      · rw [if_neg hc] at h''
        cases h''
        exact ⟨_, hr1, by simp, by simpa using hc⟩

/-- When `verifyInput` returns, its loop has passed through states of the
round and left it in one where the condition of line 149 fails; the round is
won exactly when the guess accepted last is the target. -/
theorem verifyInput_round (target input : Str) (word_array : List Str) (cin : Cin)
    (fuel : Nat) (outcome : Outcome) (s : State)
    (h : verifyInput target input word_array cin fuel = .ok (outcome, s)) :
    ∃ gs s1, Round target word_array (initState input cin) gs s1 ∧ gs ≠ [] ∧
      roundCond target s1 = false ∧ (outcome = .won ↔ s1.input = target) ∧
      s.guess_display = s1.guess_display ∧ s.number_of_guesses = s1.number_of_guesses ∧
      s.input = s1.input ∧ s.cin = s1.cin := by
  unfold verifyInput at h
  cases hl : roundLoop target word_array fuel (initState input cin) with
  | error e => rw [hl] at h; cases h
  | ok s1 =>
    rw [hl] at h
    obtain ⟨gs, hr, hne, hc⟩ := roundLoop_round target word_array (initState input cin) fuel []
      (initState input cin) s1 Round.start (Or.inl rfl) hl
    have h' : (if s1.input = target then
        (pure (Outcome.won, s1.print "You've succesfully guessed the mystery word!\n\n") :
          Run (Outcome × State))
        else pure (Outcome.lost, s1.print "You ran out of guesses.\n\n")) =
        .ok (outcome, s) := h
    by_cases he : s1.input = target
    · rw [if_pos he] at h'
      cases h'
      exact ⟨gs, s1, hr, hne, hc, by simp [he], rfl, rfl, rfl, rfl⟩
    · rw [if_neg he] at h'
      cases h'
      exact ⟨gs, s1, hr, hne, hc, by simp [he], rfl, rfl, rfl, rfl⟩

/-- The rows of `transcriptDisplay`: rows `2i` and `2i + 1` hold guess `i` and
its marks, and the rows of the attempts not yet made are as initialised. -/
theorem transcriptDisplay_rows (target : Str) (gs : List Str) (hk : gs.length ≤ 6) :
    (∀ i g, gs[i]? = some g →
      (transcriptDisplay target gs)[2 * i]? = some [g, [], [], [], [], []] ∧
      (transcriptDisplay target gs)[2 * i + 1]? = some (codeMarks target g ++ [['\n']])) ∧
    (∀ i, gs.length ≤ i → i < 6 →
      (transcriptDisplay target gs)[2 * i]? = some [[], [], [], [], [], []] ∧
      (transcriptDisplay target gs)[2 * i + 1]? = some freshHintRow) := by
  constructor
  · intro i g hg
    have hi : i < gs.length := by
      rcases Nat.lt_or_ge i gs.length with h | h
      · exact h
      · rw [List.getElem?_eq_none h] at hg; cases hg
    match gs, hk, hi with
    | [_], _, hi =>
      simp only [List.length_cons, List.length_nil] at hi
      interval_cases i
      simp at hg
      subst hg
      exact ⟨rfl, rfl⟩
    | [_, _], _, hi =>
      simp only [List.length_cons, List.length_nil] at hi
      interval_cases i <;> simp at hg <;> subst hg <;> exact ⟨rfl, rfl⟩
    | [_, _, _], _, hi =>
      simp only [List.length_cons, List.length_nil] at hi
      interval_cases i <;> simp at hg <;> subst hg <;> exact ⟨rfl, rfl⟩
    | [_, _, _, _], _, hi =>
      simp only [List.length_cons, List.length_nil] at hi
      interval_cases i <;> simp at hg <;> subst hg <;> exact ⟨rfl, rfl⟩
    | [_, _, _, _, _], _, hi =>
      simp only [List.length_cons, List.length_nil] at hi
      interval_cases i <;> simp at hg <;> subst hg <;> exact ⟨rfl, rfl⟩
    | [_, _, _, _, _, _], _, hi =>
      simp only [List.length_cons, List.length_nil] at hi
      interval_cases i <;> simp at hg <;> subst hg <;> exact ⟨rfl, rfl⟩
  · intro i hi h6
    match gs, hk, hi with
    | [], _, _ => interval_cases i <;> exact ⟨rfl, rfl⟩
    | [_], _, hi =>
      simp only [List.length_cons, List.length_nil] at hi
      interval_cases i <;> exact ⟨rfl, rfl⟩
    | [_, _], _, hi =>
      simp only [List.length_cons, List.length_nil] at hi
      interval_cases i <;> exact ⟨rfl, rfl⟩
    | [_, _, _], _, hi =>
      simp only [List.length_cons, List.length_nil] at hi
      interval_cases i <;> exact ⟨rfl, rfl⟩
    | [_, _, _, _], _, hi =>
      simp only [List.length_cons, List.length_nil] at hi
      interval_cases i <;> exact ⟨rfl, rfl⟩
    | [_, _, _, _, _], _, hi =>
      simp only [List.length_cons, List.length_nil] at hi
      interval_cases i
      exact ⟨rfl, rfl⟩
    | [_, _, _, _, _, _], _, hi =>
      simp only [List.length_cons, List.length_nil] at hi
      omega

/-! ## Claims on `verifyInput` and `generateWord` -/

/-- C6: let the word array have its `TOTAL_WORDS` slots and the lines typed
hold one word each, every one of them that is in the array being of five
letters. Let `g` be the first accepted guess (line whose word is in the array)
that is the target or the sixth accepted guess; `pre` are the lines before it,
none of whose accepted words is the target, `post` and `rest` what follows.
Then, with fuel for the lines of `pre`, `verifyInput` returns, for every
target of at least four letters (`displayGame` reads `target[0..4]`): the
round is won exactly when `g` is the target, at whichever of the attempts 1 to
6 this is, and is lost exactly when `g` is the sixth accepted guess and is not
the target; the attempts counted are the accepted guesses up to `g`, and
nothing after the line of `g` is read. -/
theorem C6_round_outcome (target input : Str) (word_array : List Str) (pre post : List Str)
    (g : Str) (rest : List Char) (fuel : Nat)
    (hlen : word_array.length = TOTAL_WORDS) (ht : 4 ≤ target.length)
    (htyped : ∀ w ∈ pre ++ [g], Typeable w)
    (hfive : ∀ w ∈ pre ++ [g], w ∈ word_array → w.length = 5)
    (hg : g ∈ word_array)
    (hnot : target ∉ pre.filter (fun w => decide (w ∈ word_array)))
    (hk : (pre.filter (fun w => decide (w ∈ word_array))).length < ALLOWED_GUESSES)
    (hend : g = target ∨
      (pre.filter (fun w => decide (w ∈ word_array))).length + 1 = ALLOWED_GUESSES)
    (hfuel : pre.length + 7 ≤ fuel) :
    ∃ outcome s,
      verifyInput target input word_array (Cin.ofText (linesText (pre ++ g :: post) ++ rest))
        fuel = .ok (outcome, s) ∧
      (outcome = .won ↔ g = target) ∧
      (outcome = .lost ↔
        ((pre.filter (fun w => decide (w ∈ word_array))).length + 1 = ALLOWED_GUESSES ∧
          g ≠ target)) ∧
      s.number_of_guesses = (pre.filter (fun w => decide (w ∈ word_array))).length + 1 ∧
      s.cin.buf = '\n' :: (linesText post ++ rest) := by
  have hgt : Typeable g := htyped g (by simp)
  have hg5 : g.length = 5 := hfive g (by simp) hg
  have hcin : (initState input (Cin.ofText (linesText (pre ++ g :: post) ++ rest))).cin =
      Cin.ofText ([] ++ (linesText (pre ++ [g]) ++ (linesText post ++ rest))) := by
    show Cin.ofText _ = Cin.ofText _
    congr 1
    have : pre ++ g :: post = (pre ++ [g]) ++ post := by simp
    rw [this, linesText_append, List.nil_append, List.append_assoc]
  obtain ⟨s', hrun, hinv, hin, hcin'⟩ := roundLoop_lines target word_array hlen ht g
    (linesText post ++ rest) hg hg5 hgt
    (pre.filter (fun w => decide (w ∈ word_array))).length pre []
    (initState input (Cin.ofText (linesText (pre ++ g :: post) ++ rest))) fuel [] rfl
    (RoundInv_init target input _) (by simpa [ALLOWED_GUESSES] using hk)
    (fun w hw => ⟨htyped w (by simp [hw]), fun hmem => ⟨hfive w (by simp [hw]) hmem,
      fun he => hnot (by rw [← he]; exact List.mem_filter.mpr ⟨hw, by simpa using hmem⟩)⟩⟩)
    (by rcases hend with h1 | h1
        · exact Or.inl h1
        · right; simp [ALLOWED_GUESSES] at h1 ⊢; omega)
    (by simp) hcin (by simp only [ALLOWED_GUESSES] at hk; omega)
  have hn : s'.number_of_guesses =
      (pre.filter (fun w => decide (w ∈ word_array))).length + 1 := by
    rw [hinv.1]; simp
  by_cases hgt' : g = target
  · refine ⟨.won, s'.print "You've succesfully guessed the mystery word!\n\n", ?_, ?_, ?_, hn,
      by show s'.cin.buf = _; rw [hcin']; rfl⟩
    · unfold verifyInput
      rw [hrun]
      show (if s'.input = target then _ else _) = _
      rw [if_pos (hin.trans hgt')]
      rfl
    · simp [hgt']
    · simp [hgt']
  · refine ⟨.lost, s'.print "You ran out of guesses.\n\n", ?_, ?_, ?_, hn,
      by show s'.cin.buf = _; rw [hcin']; rfl⟩
    · unfold verifyInput
      rw [hrun]
      show (if s'.input = target then _ else _) = _
      rw [if_neg (by rw [hin]; exact hgt')]
      rfl
    · simp [hgt']
    · simp only [true_iff]
      exact ⟨hend.resolve_left hgt', hgt'⟩

theorem sampleWords_length : sampleWords.length = TOTAL_WORDS := by
  simp only [sampleWords, TOTAL_WORDS, List.length_append, List.length_replicate,
    List.length_cons, List.length_nil]

theorem hello_not_mem_sampleWords : ['h', 'e', 'l', 'l', 'o'] ∉ sampleWords := by
  simp only [sampleWords, List.mem_append, List.mem_replicate, List.mem_cons,
    List.not_mem_nil]
  decide

theorem sampleWords_filter :
    List.filter (fun w => decide (w ∈ sampleWords))
      [['h', 'e', 'l', 'l', 'o'], ['e', 'r', 'a', 's', 'e']] = [['e', 'r', 'a', 's', 'e']] := by
  have h1 : ['e', 'r', 'a', 's', 'e'] ∈ sampleWords := by
    simp only [sampleWords, List.mem_append, List.mem_cons]
    decide
  simp [List.filter, hello_not_mem_sampleWords, h1]

/-- C6 on the lines hello, erase, speed, crane with target speed: hello is
turned down, erase is the first attempt and speed, the second, wins; the line
crane is left unread. -/
theorem C6_round_outcome_witness :
    ∃ outcome s,
      verifyInput ['s', 'p', 'e', 'e', 'd'] [] sampleWords
        (Cin.ofText (linesText ([['h', 'e', 'l', 'l', 'o'], ['e', 'r', 'a', 's', 'e']] ++
          ['s', 'p', 'e', 'e', 'd'] :: [['c', 'r', 'a', 'n', 'e']]) ++ [])) 9 =
        .ok (outcome, s) ∧
      (outcome = .won ↔ ['s', 'p', 'e', 'e', 'd'] = ['s', 'p', 'e', 'e', 'd']) ∧
      (outcome = .lost ↔
        ((List.filter (fun w => decide (w ∈ sampleWords))
          [['h', 'e', 'l', 'l', 'o'], ['e', 'r', 'a', 's', 'e']]).length + 1 =
            ALLOWED_GUESSES ∧
          ['s', 'p', 'e', 'e', 'd'] ≠ ['s', 'p', 'e', 'e', 'd'])) ∧
      s.number_of_guesses = (List.filter (fun w => decide (w ∈ sampleWords))
        [['h', 'e', 'l', 'l', 'o'], ['e', 'r', 'a', 's', 'e']]).length + 1 ∧
      s.cin.buf = '\n' :: (linesText [['c', 'r', 'a', 'n', 'e']] ++ []) :=
  C6_round_outcome ['s', 'p', 'e', 'e', 'd'] [] sampleWords
    [['h', 'e', 'l', 'l', 'o'], ['e', 'r', 'a', 's', 'e']] [['c', 'r', 'a', 'n', 'e']]
    ['s', 'p', 'e', 'e', 'd'] [] 9 sampleWords_length (by decide) (by decide)
    (fun w hw _ => (by decide : ∀ w ∈ [['h', 'e', 'l', 'l', 'o'], ['e', 'r', 'a', 's', 'e']] ++
      [['s', 'p', 'e', 'e', 'd']], w.length = 5) w hw)
    (by simp only [sampleWords, List.mem_append, List.mem_cons]; decide)
    (by rw [sampleWords_filter]; decide)
    (by rw [sampleWords_filter]; decide) (Or.inl rfl) (by decide)

/-- C7: in a state of the validation loop (the flag `exists_in_word_list` is
set only for a word of the array) whose current word is not in the vocabulary
array or is not of length 5, the pass through the body of the loop that
processes this word leaves `number_of_guesses`, the display buffer and the two
display indices unchanged, and the loop goes on: the word is not accepted, so
no attempt is counted and no row is written. The state after the pass is
again such a state. -/
theorem C7_rejected_word_keeps_progress (word_array : List Str) (s : State)
    (hlen : word_array.length = TOTAL_WORDS) (hsound : s.FlagSound word_array)
    (hrej : s.input ∉ word_array ∨ s.input.length ≠ 5) :
    ∃ s', validateBody word_array s = .ok s' ∧
      s'.number_of_guesses = s.number_of_guesses ∧ s'.guess_display = s.guess_display ∧
      s'.hint_display_index = s.hint_display_index ∧
      s'.input_display_index = s.input_display_index ∧
      validateCond s' = true ∧ s'.FlagSound word_array := by
  have hvoc := vocabulary_eq word_array hlen
  have hle : TOTAL_WORDS ≤ word_array.length := Nat.le_of_eq hlen.symm
  have hrun := validateBody_eq word_array s hle
  by_cases hb : (s.exists_in_word_list || decide (s.input ∈ vocabulary word_array)) = false
  · rw [if_pos hb] at hrun
    refine ⟨_, hrun, rfl, rfl, rfl, rfl, ?_, ?_⟩
    · simp [validateCond, State.print, State.readInput]
    · intro hc
      simp [State.print, State.readInput] at hc
  · rw [if_neg hb] at hrun
    have hin : s.input ∈ word_array := by
      simp only [Bool.or_eq_false_iff, decide_eq_false_iff_not, not_and, not_not,
        Bool.not_eq_false] at hb
      cases he : s.exists_in_word_list with
      | true => rw [← hvoc]; exact hsound he
      | false => rw [← hvoc]; exact hb he
    have h5 : s.input.length ≠ 5 := hrej.resolve_left (fun h => h hin)
    refine ⟨_, hrun, rfl, rfl, rfl, rfl, ?_, ?_⟩
    · simp only [validateCond, Bool.or_eq_true, decide_eq_true_eq]
      right
      omega
    · intro _
      rw [hvoc]
      exact hin

/-- C7 in the state in which the word hi has just been read, before any
guess is accepted. -/
theorem C7_rejected_word_keeps_progress_witness :
    ∃ s', validateBody sampleWords { initState ['h', 'i'] (Cin.ofText ['\n', 'c', 'r', 'a', 'n', 'e', '\n'])
        with exists_in_word_list := false } = .ok s' ∧
      s'.number_of_guesses = 0 ∧ s'.guess_display = guess_display_init ∧
      s'.hint_display_index = 1 ∧ s'.input_display_index = 0 ∧
      validateCond s' = true ∧ s'.FlagSound sampleWords :=
  C7_rejected_word_keeps_progress sampleWords
    { initState ['h', 'i'] (Cin.ofText ['\n', 'c', 'r', 'a', 'n', 'e', '\n'])
      with exists_in_word_list := false }
    sampleWords_length (fun h => by cases h) (Or.inr (by decide))

/-- C8: for every word array and every content of the input stream, the guess
that `verifyInput` accepts, the value of `input` when the validation loop
exits, is one of the `TOTAL_WORDS` words of the array and has length 5. -/
theorem C8_accepted_guess_in_vocabulary (word_array : List Str) (fuel : Nat) (s s' : State)
    (h : acceptGuess word_array fuel s = .ok s') :
    (∃ i, i < TOTAL_WORDS ∧ word_array[i]? = some s'.input) ∧ s'.input.length = 5 := by
  obtain ⟨_, hmem, h5, _⟩ := acceptGuess_spec word_array fuel s s' h
  refine ⟨?_, h5⟩
  unfold vocabulary at hmem
  obtain ⟨i, hi, hget⟩ := List.getElem_of_mem hmem
  have hi' : i < TOTAL_WORDS ∧ i < word_array.length := by
    simpa [List.length_take] using hi
  refine ⟨i, hi'.1, ?_⟩
  rw [List.getElem?_eq_getElem hi'.2, ← hget, List.getElem_take]

/-- C8 on the lines hello and crane: hello is turned down and crane is
accepted. -/
theorem C8_accepted_guess_in_vocabulary_witness :
    ∃ s', acceptGuess sampleWords 2
        (initState [] (Cin.ofText (linesText [['h', 'e', 'l', 'l', 'o'],
          ['c', 'r', 'a', 'n', 'e']]))) = .ok s' ∧
      s'.input = ['c', 'r', 'a', 'n', 'e'] ∧
      ((∃ i, i < TOTAL_WORDS ∧ sampleWords[i]? = some s'.input) ∧ s'.input.length = 5) := by
  obtain ⟨s', hrun, _, hin, _⟩ := acceptGuess_lines sampleWords sampleWords_length
    ['c', 'r', 'a', 'n', 'e'] [] []
    (by simp only [sampleWords, List.mem_append, List.mem_cons]; decide) (by decide)
    (by decide) (by simp) [['h', 'e', 'l', 'l', 'o']] 2
    (initState [] (Cin.ofText (linesText [['h', 'e', 'l', 'l', 'o'],
      ['c', 'r', 'a', 'n', 'e']])))
    (fun r hr => by
      rw [List.mem_singleton.mp hr]
      exact ⟨by decide, hello_not_mem_sampleWords⟩)
    (by decide) (by simp [initState, linesText])
  exact ⟨s', hrun, hin, C8_accepted_guess_in_vocabulary sampleWords 2 _ s' hrun⟩

/-- C9 fails on the code: when `rand()` returns 2315, `generateWord` called
with `array_size = TOTAL_WORDS` computes the index 2315, which is not below
`TOTAL_WORDS`, and reads past the last slot of the array. -/
theorem C9_generateWord_index_out_of_range :
    generateIndex TOTAL_WORDS 2315 = 2315 ∧ ¬ generateIndex TOTAL_WORDS 2315 < TOTAL_WORDS ∧
      generateWord sampleWords TOTAL_WORDS 2315 = .error .outOfRange := by
  refine ⟨by decide, by decide, ?_⟩
  unfold generateWord
  have h : generateIndex TOTAL_WORDS 2315 = 2315 := by decide
  rw [h, List.getElem?_eq_none (by rw [sampleWords_length]; decide)]

/-- C10: in every state of a round, whatever the input stream holds, with
`gs` the guesses accepted so far, in the order of the attempts:
`number_of_guesses` is their number `k`, which is at most `ALLOWED_GUESSES`;
row `2i` of the display buffer holds guess `i` and row `2i + 1` its marks, for
every `i < k`; and the rows of the attempts `k` to 5 are as `verifyInput`
initialised them. The two display indices point at the rows of the next
attempt. -/
theorem C10_display_records_accepted_guesses (target input : Str) (word_array : List Str)
    (cin : Cin) (gs : List Str) (s : State)
    (h : Round target word_array (initState input cin) gs s) :
    gs.length ≤ ALLOWED_GUESSES ∧ s.number_of_guesses = gs.length ∧
      (∀ i g, gs[i]? = some g →
        s.guess_display[2 * i]? = some [g, [], [], [], [], []] ∧
        s.guess_display[2 * i + 1]? = some (codeMarks target g ++ [['\n']])) ∧
      (∀ i, gs.length ≤ i → i < ALLOWED_GUESSES →
        s.guess_display[2 * i]? = some [[], [], [], [], [], []] ∧
        s.guess_display[2 * i + 1]? = some freshHintRow) ∧
      s.input_display_index = 2 * gs.length ∧ s.hint_display_index = 2 * gs.length + 1 := by
  obtain ⟨hinv, hk, _⟩ := Round.inv target word_array input cin gs s h
  have hrows := transcriptDisplay_rows target gs hk
  rw [← hinv.2.2.2] at hrows
  exact ⟨hk, hinv.1, hrows.1, hrows.2, hinv.2.1, hinv.2.2.1⟩

/-- C10 after the first pass of a round with target speed, on the line
erase. -/
theorem C10_display_records_accepted_guesses_witness :
    ∃ s, Round ['s', 'p', 'e', 'e', 'd'] sampleWords
        (initState [] (Cin.ofText (linesText [['e', 'r', 'a', 's', 'e']])))
        [['e', 'r', 'a', 's', 'e']] s ∧
      s.number_of_guesses = 1 ∧
      s.guess_display[0]? = some [['e', 'r', 'a', 's', 'e'], [], [], [], [], []] ∧
      s.guess_display[1]? = some [['&'], ['-'], ['-'], ['&'], ['&'], ['\n']] ∧
      s.guess_display[2]? = some [[], [], [], [], [], []] ∧
      s.guess_display[3]? = some freshHintRow := by
  obtain ⟨s', hrun, _, hin, _⟩ := roundBody_lines ['s', 'p', 'e', 'e', 'd'] sampleWords
    sampleWords_length (by decide) ['e', 'r', 'a', 's', 'e'] [] []
    (by simp only [sampleWords, List.mem_append, List.mem_cons]; decide) (by decide)
    (by decide) (by simp) [] 1
    (initState [] (Cin.ofText (linesText [['e', 'r', 'a', 's', 'e']]))) []
    (by simp) (by decide) (by simp [initState, linesText]) (RoundInv_init _ _ _) (by decide)
  have hround : Round ['s', 'p', 'e', 'e', 'd'] sampleWords
      (initState [] (Cin.ofText (linesText [['e', 'r', 'a', 's', 'e']])))
      [['e', 'r', 'a', 's', 'e']] s' := by
    have := Round.pass [] _ s' 1 (@Round.start ['s', 'p', 'e', 'e', 'd'] sampleWords
      (initState [] (Cin.ofText (linesText [['e', 'r', 'a', 's', 'e']]))))
      (Or.inl rfl) hrun
    rw [hin] at this
    exact this
  obtain ⟨_, hn, hrows, hfree, _⟩ :=
    C10_display_records_accepted_guesses _ _ _ _ _ s' hround
  have h0 := hrows 0 ['e', 'r', 'a', 's', 'e'] rfl
  have h1 := hfree 1 (by decide) (by decide)
  exact ⟨s', hround, hn, h0.1, h0.2, h1.1, h1.2⟩

/-! ## The mark of the code, position by position -/

/-- The mark that the code leaves in column `j`: `-` when the letter of the
guess is nowhere in the target, `!` when the target has it at `j` and nowhere
further right, `&` in the remaining case. -/
theorem markOf_last_occurrence (t0 t1 t2 t3 t4 g0 g1 g2 g3 g4 : Char) (j : Nat) (g : Char)
    (hg : [g0, g1, g2, g3, g4][j]? = some g) :
    (markOf [t0, t1, t2, t3, t4] [g0, g1, g2, g3, g4] j ['-'] = ['-'] ↔
      g ∉ [t0, t1, t2, t3, t4]) ∧
    (markOf [t0, t1, t2, t3, t4] [g0, g1, g2, g3, g4] j ['-'] = ['!'] ↔
      ([t0, t1, t2, t3, t4][j]? = some g ∧ g ∉ [t0, t1, t2, t3, t4].drop (j + 1))) ∧
    (markOf [t0, t1, t2, t3, t4] [g0, g1, g2, g3, g4] j ['-'] = ['&'] ↔
      (g ∈ [t0, t1, t2, t3, t4] ∧
        ¬ ([t0, t1, t2, t3, t4][j]? = some g ∧ g ∉ [t0, t1, t2, t3, t4].drop (j + 1)))) := by
  have hj : j < 5 := by
    rcases Nat.lt_or_ge j 5 with h | h
    · exact h
    · rw [List.getElem?_eq_none (by simpa using h)] at hg; cases hg
  have hne1 : (['&'] : Str) ≠ ['-'] := by decide
  have hne2 : (['!'] : Str) ≠ ['-'] := by decide
  have hne3 : (['&'] : Str) ≠ ['!'] := by decide
  interval_cases j <;>
    simp only [List.getElem?_cons_zero, List.getElem?_cons_succ, Option.some.injEq] at hg <;>
    subst hg <;>
    simp only [markOf_five, markStep, List.getD_cons_zero, List.getD_cons_succ,
      List.mem_cons, List.mem_singleton, List.not_mem_nil, or_false, List.drop_succ_cons,
      List.drop_zero, List.getElem?_cons_zero, List.getElem?_cons_succ, Option.some.injEq,
      CORRECT_L_SYMBOL, CORRECT_LP_SYMBOL, List.drop_nil, not_false_eq_true, and_true] <;>
    split_ifs <;> simp_all <;> intro h <;> exact absurd h.symm (by assumption)

theorem codeMarks_getElem? (target input : Str) (j : Nat) (hj : j < 5) :
    (codeMarks target input)[j]? = some (markOf target input j ['-']) := by
  interval_cases j <;> rfl

theorem NoLaterRepeat_of_nodup (target input : Str) (ht : target.Nodup) :
    NoLaterRepeat target input := by
  intro i hi j hj hjeq hieq
  have h := List.nodup_iff_getElem?_ne_getElem?.mp ht j i hj hi
  exact h (hjeq.symm.trans hieq.symm)

theorem NoExcess_of_nodup (target input : Str) (hi : input.Nodup) : NoExcess target input := by
  intro c _ hcT
  have h1 : input.count c ≤ 1 := List.nodup_iff_count_le_one.mp hi c
  have h2 : 0 < target.count c := List.count_pos_iff.mpr hcT
  omega

/-! ## Claims on the marks, position by position -/

/-- C14: for every 5-letter target and guess and every position `j`, with `g`
the letter of the guess at `j`, the mark that `displayGame` leaves at `j` in a
fresh hint row is `-` if and only if `g` occurs nowhere in the target; `!` if
and only if the last occurrence of `g` in the target is at `j` (the target has
`g` at `j` and nowhere further right); and `&` otherwise, that is if and only
if `g` occurs in the target and its last occurrence is not at `j`. -/
theorem C14_mark_by_last_occurrence (d : Display) (target input : Str) (h k : Nat)
    (hd : d.WF) (hh : h < ALLOWED_GUESSES * 2) (hk : k < ALLOWED_GUESSES * 2) (hkh : k ≠ h)
    (hfresh : d[h]? = some freshHintRow)
    (ht : target.length = 5) (hi : input.length = 5) :
    ∃ marks, hintMarks d target input h k = .ok marks ∧
      ∀ j g, input[j]? = some g →
        (marks[j]? = some ['-'] ↔ g ∉ target) ∧
        (marks[j]? = some ['!'] ↔ (target[j]? = some g ∧ g ∉ target.drop (j + 1))) ∧
        (marks[j]? = some ['&'] ↔
          (g ∈ target ∧ ¬ (target[j]? = some g ∧ g ∉ target.drop (j + 1)))) := by
  refine ⟨codeMarks target input,
    hintMarks_eq d target input h k hd (by omega) (by omega) hh hk hkh hfresh, ?_⟩
  intro j g hg
  have hj : j < 5 := by
    rcases Nat.lt_or_ge j 5 with h1 | h1
    · exact h1
    · rw [List.getElem?_eq_none (by omega)] at hg; cases hg
  obtain ⟨t0, t1, t2, t3, t4, rfl⟩ := list_length_five target ht
  obtain ⟨g0, g1, g2, g3, g4, rfl⟩ := list_length_five input hi
  rw [codeMarks_getElem? _ _ j hj]
  simp only [Option.some.injEq]
  exact markOf_last_occurrence t0 t1 t2 t3 t4 g0 g1 g2 g3 g4 j g hg

/-- C14 at target SPEED, guess ERASE and position 0 (letter E), in the second
attempt of a round: the mark is `&`, as E occurs in SPEED and its last
occurrence is at position 3. -/
theorem C14_mark_by_last_occurrence_witness :
    ∃ marks, hintMarks guess_display_init ['S', 'P', 'E', 'E', 'D']
        ['E', 'R', 'A', 'S', 'E'] 3 2 = .ok marks ∧
      marks[0]? = some ['&'] ∧ 'E' ∈ ['S', 'P', 'E', 'E', 'D'] ∧
      ¬ (['S', 'P', 'E', 'E', 'D'][0]? = some 'E' ∧
        'E' ∉ ['S', 'P', 'E', 'E', 'D'].drop (0 + 1)) := by
  obtain ⟨marks, hrun, hall⟩ := C14_mark_by_last_occurrence guess_display_init
    ['S', 'P', 'E', 'E', 'D'] ['E', 'R', 'A', 'S', 'E'] 3 2 (by decide) (by decide)
    (by decide) (by decide) (by decide) (by decide) (by decide)
  have h := (hall 0 'E' (by decide)).2.2
  have hr : 'E' ∈ ['S', 'P', 'E', 'E', 'D'] ∧ ¬ (['S', 'P', 'E', 'E', 'D'][0]? = some 'E' ∧
      'E' ∉ ['S', 'P', 'E', 'E', 'D'].drop (0 + 1)) := by decide
  exact ⟨marks, hrun, h.mpr hr, hr⟩

/-- C15: for every 5-letter target whose letters are pairwise distinct and
every 5-letter guess whose letters are pairwise distinct, the hint row written
by `displayGame` equals the feedback of the two-pass consume-on-use scoring
algorithm of the specification. -/
theorem C15_distinct_letters_eq_specMarks (d : Display) (target input : Str) (h k : Nat)
    (hd : d.WF) (hh : h < ALLOWED_GUESSES * 2) (hk : k < ALLOWED_GUESSES * 2) (hkh : k ≠ h)
    (hfresh : d[h]? = some freshHintRow)
    (ht : target.length = 5) (hi : input.length = 5)
    (htd : target.Nodup) (hid : input.Nodup) :
    hintMarks d target input h k = .ok (specMarks target input) := by
  rw [hintMarks_eq d target input h k hd (by omega) (by omega) hh hk hkh hfresh,
    codeMarks_eq_member target input ht hi (NoLaterRepeat_of_nodup target input htd),
    specMarks, specScore_eq_member target input (by omega) (NoExcess_of_nodup target input hid)]

/-- C15 at target CRANE and guess TRACE, in the fourth attempt of a round:
both scorings give `-`, `!`, `!`, `&`, `!`. -/
theorem C15_distinct_letters_eq_specMarks_witness :
    hintMarks guess_display_init ['C', 'R', 'A', 'N', 'E'] ['T', 'R', 'A', 'C', 'E'] 7 6 =
        .ok (specMarks ['C', 'R', 'A', 'N', 'E'] ['T', 'R', 'A', 'C', 'E']) ∧
      specMarks ['C', 'R', 'A', 'N', 'E'] ['T', 'R', 'A', 'C', 'E'] =
        [['-'], ['!'], ['!'], ['&'], ['!']] :=
  ⟨C15_distinct_letters_eq_specMarks guess_display_init ['C', 'R', 'A', 'N', 'E']
    ['T', 'R', 'A', 'C', 'E'] 7 6 (by decide) (by decide) (by decide) (by decide) (by decide)
    (by decide) (by decide) (by decide) (by decide), by decide⟩

/-- C16: for every 5-letter target and guess, if the hint row that
`displayGame` writes into a fresh row is `!` at all five positions, then the
guess equals the target. -/
theorem C16_all_exact_implies_equal (d : Display) (target input : Str) (h k : Nat)
    (hd : d.WF) (hh : h < ALLOWED_GUESSES * 2) (hk : k < ALLOWED_GUESSES * 2) (hkh : k ≠ h)
    (hfresh : d[h]? = some freshHintRow)
    (ht : target.length = 5) (hi : input.length = 5)
    (hall : hintMarks d target input h k = .ok [['!'], ['!'], ['!'], ['!'], ['!']]) :
    input = target := by
  rw [hintMarks_eq d target input h k hd (by omega) (by omega) hh hk hkh hfresh] at hall
  have hcode : codeMarks target input = [['!'], ['!'], ['!'], ['!'], ['!']] := by
    injection hall
  obtain ⟨t0, t1, t2, t3, t4, rfl⟩ := list_length_five target ht
  obtain ⟨g0, g1, g2, g3, g4, rfl⟩ := list_length_five input hi
  simp only [codeMarks, List.cons.injEq, and_true] at hcode
  obtain ⟨h0, h1, h2, h3, h4⟩ := hcode
  have e0 := ((markOf_last_occurrence t0 t1 t2 t3 t4 g0 g1 g2 g3 g4 0 g0 rfl).2.1.mp h0).1
  have e1 := ((markOf_last_occurrence t0 t1 t2 t3 t4 g0 g1 g2 g3 g4 1 g1 rfl).2.1.mp h1).1
  have e2 := ((markOf_last_occurrence t0 t1 t2 t3 t4 g0 g1 g2 g3 g4 2 g2 rfl).2.1.mp h2).1
  have e3 := ((markOf_last_occurrence t0 t1 t2 t3 t4 g0 g1 g2 g3 g4 3 g3 rfl).2.1.mp h3).1
  have e4 := ((markOf_last_occurrence t0 t1 t2 t3 t4 g0 g1 g2 g3 g4 4 g4 rfl).2.1.mp h4).1
  simp only [List.getElem?_cons_zero, List.getElem?_cons_succ, Option.some.injEq] at e0 e1 e2 e3 e4
  rw [e0, e1, e2, e3, e4]

/-- C16 at target CRANE and guess CRANE, in the first attempt of a round. -/
theorem C16_all_exact_implies_equal_witness :
    hintMarks guess_display_init ['C', 'R', 'A', 'N', 'E'] ['C', 'R', 'A', 'N', 'E'] 1 0 =
        .ok [['!'], ['!'], ['!'], ['!'], ['!']] ∧
      (['C', 'R', 'A', 'N', 'E'] : Str) = ['C', 'R', 'A', 'N', 'E'] :=
  ⟨by decide, C16_all_exact_implies_equal guess_display_init ['C', 'R', 'A', 'N', 'E']
    ['C', 'R', 'A', 'N', 'E'] 1 0 (by decide) (by decide) (by decide) (by decide) (by decide)
    (by decide) (by decide) (by decide)⟩

/-! ## What `displayGame` leaves unchanged -/

theorem Display.read_modifyCell (d : Display) (r0 c0 : Nat) (f : Str → Str) (r c : Nat)
    (hne : ¬ (r = r0 ∧ c = c0)) :
    (Display.modifyCell d r0 c0 f).read r c = d.read r c := by
  unfold Display.modifyCell Display.read
  by_cases hr : r = r0
  · subst hr
    have hc : c0 ≠ c := fun h => hne ⟨rfl, h.symm⟩
    by_cases hl : r < d.length
    · rw [List.getElem?_set_self hl]
      simp only [List.getD_eq_getElem?_getD, List.getElem?_eq_getElem hl, Option.getD_some,
        List.getElem?_set_ne hc]
    · rw [List.set_eq_of_length_le (Nat.le_of_not_lt hl)]
  · rw [List.getElem?_set_ne (Ne.symm hr)]

theorem Display.read_set_of_ne (d : Display) (r0 : Nat) (row : List Str) (r c : Nat)
    (hr : r ≠ r0) : Display.read (d.set r0 row) r c = d.read r c := by
  unfold Display.read
  rw [List.getElem?_set_ne (Ne.symm hr)]

theorem Display.getElem?_modifyCell_of_ne (d : Display) (r0 c0 : Nat) (f : Str → Str) (r : Nat)
    (hr : r ≠ r0) : (Display.modifyCell d r0 c0 f)[r]? = d[r]? := by
  unfold Display.modifyCell
  rw [List.getElem?_set_ne (Ne.symm hr)]

/-- C12: for every call `displayGame(display, 12, target, input, hint_index,
input_index)` on a display of twelve rows of six cells, with 5-letter target
and input, every cell of the display other than columns 0 to 4 of row
`hint_index` and column 0 of row `input_index` is unchanged; in particular
every row other than these two is unchanged, so the guess and hint rows of
earlier attempts stay as they were written. -/
theorem C12_displayGame_frame (d : Display) (target input : Str) (h k : Nat)
    (hd : d.WF) (hh : h < ALLOWED_GUESSES * 2) (hk : k < ALLOWED_GUESSES * 2)
    (ht : target.length = 5) (hi : input.length = 5) :
    ∃ d' text, displayGame d (ALLOWED_GUESSES * 2) target input h k = .ok (d', text) ∧
      (∀ r c, ¬ (r = h ∧ c < 5) → ¬ (r = k ∧ c = 0) → d'.read r c = d.read r c) ∧
      (∀ r, r ≠ h → r ≠ k → d'[r]? = d[r]?) := by
  obtain ⟨hrun, _⟩ := displayGame_eq d (ALLOWED_GUESSES * 2) target input h k hd (by omega)
    (by omega) hh hk
  refine ⟨_, _, hrun, ?_, ?_⟩
  · intro r c hhint hguess
    obtain ⟨row, hrow, hlen⟩ := Display.WF_row hd hh
    obtain ⟨c0, c1, c2, c3, c4, c5, rfl⟩ := list_length_six row hlen
    unfold displayGamePure
    rw [Display.read_modifyCell _ k 0 _ r c hguess]
    by_cases hr : r = h
    · subst hr
      have hc : 5 ≤ c := by
        by_contra hlt
        exact hhint ⟨rfl, by omega⟩
      have hlt : r < d.length := by rw [hd.1]; exact hh
      unfold Display.read
      rw [List.getElem?_set_self hlt, hrow]
      simp only [List.getD_eq_getElem?_getD, hrow, Option.getD_some]
      obtain ⟨m, rfl⟩ : ∃ m, c = m + 5 := ⟨c - 5, by omega⟩
      simp
    · exact Display.read_set_of_ne d h _ r c hr
  · intro r hrh hrk
    unfold displayGamePure
    rw [Display.getElem?_modifyCell_of_ne _ k 0 _ r hrk, List.getElem?_set_ne (Ne.symm hrh)]

/-- C12 on the display after a first attempt (rows 0 and 1 written), for the
call of the second attempt: rows 0 and 1 are unchanged. -/
theorem C12_displayGame_frame_witness :
    ∃ d' text, displayGame (transcriptDisplay ['s', 'p', 'e', 'e', 'd'] [['e', 'r', 'a', 's', 'e']])
        (ALLOWED_GUESSES * 2) ['s', 'p', 'e', 'e', 'd'] ['c', 'r', 'a', 'n', 'e'] 3 2 =
          .ok (d', text) ∧
      d'[0]? = some [['e', 'r', 'a', 's', 'e'], [], [], [], [], []] ∧
      d'[1]? = some [['&'], ['-'], ['-'], ['&'], ['&'], ['\n']] := by
  obtain ⟨d', text, hrun, _, hrows⟩ := C12_displayGame_frame
    (transcriptDisplay ['s', 'p', 'e', 'e', 'd'] [['e', 'r', 'a', 's', 'e']])
    ['s', 'p', 'e', 'e', 'd'] ['c', 'r', 'a', 'n', 'e'] 3 2 (by decide) (by decide) (by decide)
    (by decide) (by decide)
  exact ⟨d', text, hrun, (hrows 0 (by decide) (by decide)).trans (by decide),
    (hrows 1 (by decide) (by decide)).trans (by decide)⟩

/-! ## Claims on the passes of a round -/

theorem Round.length_lt (target : Str) (word_array : List Str) (input : Str) (cin : Cin)
    (gs : List Str) (s : State) (hr : Round target word_array (initState input cin) gs s)
    (hcond : gs = [] ∨ roundCond target s = true) : gs.length < 6 := by
  obtain ⟨hinv, _, _⟩ := Round.inv target word_array input cin gs s hr
  rcases hcond with h0 | hc
  · rw [h0]; simp
  · unfold roundCond at hc
    simp only [Bool.and_eq_true, decide_eq_true_eq] at hc
    rw [← hinv.1]
    exact hc.1

/-- One more pass of a round, on a line that holds a word of the array. -/
theorem Round.pass_line (target : Str) (word_array : List Str) (input : Str) (cin : Cin)
    (hlen : word_array.length = TOTAL_WORDS) (ht : 4 ≤ target.length)
    (gs : List Str) (s : State) (hr : Round target word_array (initState input cin) gs s)
    (hcond : gs = [] ∨ roundCond target s = true)
    (g : Str) (tail sp : List Char) (hg : g ∈ word_array) (hg5 : g.length = 5)
    (hgt : Typeable g) (hsp : ∀ c ∈ sp, isspace c = true)
    (hcin : s.cin = Cin.ofText (sp ++ (linesText [g] ++ tail))) :
    ∃ s', Round target word_array (initState input cin) (gs ++ [g]) s' ∧ s'.input = g ∧
      s'.number_of_guesses = gs.length + 1 ∧ s'.cin = Cin.ofText ('\n' :: tail) := by
  obtain ⟨hinv, _, _⟩ := Round.inv target word_array input cin gs s hr
  have hk := Round.length_lt target word_array input cin gs s hr hcond
  obtain ⟨s', hrun, hinv', hin, hcin'⟩ := roundBody_lines target word_array hlen ht g tail sp
    hg hg5 hgt hsp [] 1 s gs (by simp) (by simp) hcin hinv hk
  have hround := Round.pass gs s s' 1 hr hcond hrun
  rw [hin] at hround
  exact ⟨s', hround, hin, by rw [hinv'.1]; simp, hcin'⟩

/-- C11: within rounds on the same target, whatever the word arrays and the
input streams, the hint row of an accepted guess `g` depends only on the
target and on `g`: if `g` is attempt `i1` of one round and attempt `i2` of
another (after whatever earlier guesses), the rows `2 * i1 + 1` and
`2 * i2 + 1` of the two displays are the same row, and its five marks are
`codeMarks target g`, a function of the two words alone. -/
theorem C11_hint_row_depends_on_target_and_guess (target : Str)
    (word_array1 word_array2 : List Str) (input1 input2 : Str) (cin1 cin2 : Cin)
    (gs1 gs2 : List Str) (s1 s2 : State) (i1 i2 : Nat) (g : Str)
    (h1 : Round target word_array1 (initState input1 cin1) gs1 s1)
    (h2 : Round target word_array2 (initState input2 cin2) gs2 s2)
    (hg1 : gs1[i1]? = some g) (hg2 : gs2[i2]? = some g) :
    ∃ row, s1.guess_display[2 * i1 + 1]? = some row ∧
      s2.guess_display[2 * i2 + 1]? = some row ∧ row.take 5 = codeMarks target g := by
  obtain ⟨hinv1, hk1, _⟩ := Round.inv target word_array1 input1 cin1 gs1 s1 h1
  obtain ⟨hinv2, hk2, _⟩ := Round.inv target word_array2 input2 cin2 gs2 s2 h2
  have hr1 := ((transcriptDisplay_rows target gs1 hk1).1 i1 g hg1).2
  have hr2 := ((transcriptDisplay_rows target gs2 hk2).1 i2 g hg2).2
  rw [← hinv1.2.2.2] at hr1
  rw [← hinv2.2.2.2] at hr2
  exact ⟨_, hr1, hr2, by simp [codeMarks]⟩

/-- C11 for target speed and the guess erase, first attempt of one round and
second attempt, after crane, of another: rows 1 and 3 are the same. -/
theorem C11_hint_row_depends_on_target_and_guess_witness :
    ∃ s1 s2,
      Round ['s', 'p', 'e', 'e', 'd'] sampleWords
        (initState [] (Cin.ofText (linesText [['e', 'r', 'a', 's', 'e']])))
        [['e', 'r', 'a', 's', 'e']] s1 ∧
      Round ['s', 'p', 'e', 'e', 'd'] sampleWords
        (initState [] (Cin.ofText (linesText [['c', 'r', 'a', 'n', 'e'],
          ['e', 'r', 'a', 's', 'e']])))
        [['c', 'r', 'a', 'n', 'e'], ['e', 'r', 'a', 's', 'e']] s2 ∧
      ∃ row, s1.guess_display[2 * 0 + 1]? = some row ∧
        s2.guess_display[2 * 1 + 1]? = some row ∧
        row.take 5 = codeMarks ['s', 'p', 'e', 'e', 'd'] ['e', 'r', 'a', 's', 'e'] := by
  have herase : ['e', 'r', 'a', 's', 'e'] ∈ sampleWords := by
    simp only [sampleWords, List.mem_append, List.mem_cons]; decide
  have hcrane : ['c', 'r', 'a', 'n', 'e'] ∈ sampleWords := by
    simp only [sampleWords, List.mem_append, List.mem_cons]; decide
  obtain ⟨s1, hr1, _, _, _⟩ := Round.pass_line ['s', 'p', 'e', 'e', 'd'] sampleWords []
    (Cin.ofText (linesText [['e', 'r', 'a', 's', 'e']])) sampleWords_length (by decide) [] _
    Round.start (Or.inl rfl) ['e', 'r', 'a', 's', 'e'] [] [] herase (by decide) (by decide)
    (by simp) (by simp [initState, linesText])
  obtain ⟨t1, ht1, hin1, hn1, hcin1⟩ := Round.pass_line ['s', 'p', 'e', 'e', 'd'] sampleWords []
    (Cin.ofText (linesText [['c', 'r', 'a', 'n', 'e'], ['e', 'r', 'a', 's', 'e']]))
    sampleWords_length (by decide) [] _ Round.start (Or.inl rfl) ['c', 'r', 'a', 'n', 'e']
    (linesText [['e', 'r', 'a', 's', 'e']]) [] hcrane (by decide) (by decide) (by simp)
    (by simp [initState, linesText])
  have hcond : roundCond ['s', 'p', 'e', 'e', 'd'] t1 = true := by
    unfold roundCond
    rw [hn1, hin1]
    decide
  obtain ⟨s2, hr2, _, _, _⟩ := Round.pass_line ['s', 'p', 'e', 'e', 'd'] sampleWords []
    (Cin.ofText (linesText [['c', 'r', 'a', 'n', 'e'], ['e', 'r', 'a', 's', 'e']]))
    sampleWords_length (by decide) _ t1 ht1 (Or.inr hcond) ['e', 'r', 'a', 's', 'e'] [] ['\n']
    herase (by decide) (by decide) (by simp [isspace]) (by rw [hcin1]; simp [linesText])
  exact ⟨s1, s2, hr1, hr2, C11_hint_row_depends_on_target_and_guess ['s', 'p', 'e', 'e', 'd']
    sampleWords sampleWords [] [] _ _ _ _ s1 s2 0 1 ['e', 'r', 'a', 's', 'e'] hr1 hr2 rfl rfl⟩

/-- C17: for every pass through the loop of a round, whatever the input
stream holds, with `n` the number of guesses accepted before it (the value of
`number_of_guesses` when the validation loop exits): `n < 6`, and the call of
`displayGame` that the pass makes after the validation loop has
`input_index = 2n` and `hint_index = 2n + 1`, both below the 12 rows, on a
display of 12 rows of 6 cells; for a target of at least four letters the call
returns, that is, none of its accesses is out of range. -/
theorem C17_displayGame_call_in_range (target input : Str) (word_array : List Str) (cin : Cin)
    (gs : List Str) (s s1 : State) (fuel : Nat)
    (hr : Round target word_array (initState input cin) gs s)
    (hcond : gs = [] ∨ roundCond target s = true)
    (hacc : acceptGuess word_array fuel s = .ok s1) :
    gs.length < ALLOWED_GUESSES ∧ s1.number_of_guesses = gs.length ∧
      s1.input_display_index = 2 * gs.length ∧ s1.hint_display_index = 2 * gs.length + 1 ∧
      s1.input_display_index < ALLOWED_GUESSES * 2 ∧
      s1.hint_display_index < ALLOWED_GUESSES * 2 ∧
      s1.guess_display.WF ∧
      (4 ≤ target.length →
        ∃ r, displayGame s1.guess_display (ALLOWED_GUESSES * 2) target s1.input
          s1.hint_display_index s1.input_display_index = .ok r) := by
  obtain ⟨hinv, hk6, _⟩ := Round.inv target word_array input cin gs s hr
  have hk := Round.length_lt target word_array input cin gs s hr hcond
  obtain ⟨hsame, _, h5, _⟩ := acceptGuess_spec word_array fuel s s1 hacc
  have hii : s1.input_display_index = 2 * gs.length := hsame.2.2.2.trans hinv.2.1
  have hhi : s1.hint_display_index = 2 * gs.length + 1 := hsame.2.2.1.trans hinv.2.2.1
  have hwf : s1.guess_display.WF := by
    rw [hsame.2.1, hinv.2.2.2]
    exact transcriptDisplay_WF target gs hk6
  have hi12 : s1.input_display_index < ALLOWED_GUESSES * 2 := by
    rw [hii]; simp only [ALLOWED_GUESSES]; omega
  have hh12 : s1.hint_display_index < ALLOWED_GUESSES * 2 := by
    rw [hhi]; simp only [ALLOWED_GUESSES]; omega
  refine ⟨hk, hsame.1.trans hinv.1, hii, hhi, hi12, hh12, hwf, ?_⟩
  intro ht
  exact ⟨_, (displayGame_eq s1.guess_display (ALLOWED_GUESSES * 2) target s1.input
    s1.hint_display_index s1.input_display_index hwf ht (by omega) hh12 hi12).1⟩

/-- C17 for the first pass of a round, on the line erase: the call of
`displayGame` has `input_index = 0` and `hint_index = 1`. -/
theorem C17_displayGame_call_in_range_witness :
    ∃ s1, acceptGuess sampleWords 1
        (initState [] (Cin.ofText (linesText [['e', 'r', 'a', 's', 'e']]))) = .ok s1 ∧
      s1.input_display_index = 0 ∧ s1.hint_display_index = 1 ∧ s1.guess_display.WF ∧
      ∃ r, displayGame s1.guess_display (ALLOWED_GUESSES * 2) ['s', 'p', 'e', 'e', 'd'] s1.input
        s1.hint_display_index s1.input_display_index = .ok r := by
  obtain ⟨s1, hrun, _, _, _⟩ := acceptGuess_lines sampleWords sampleWords_length
    ['e', 'r', 'a', 's', 'e'] [] []
    (by simp only [sampleWords, List.mem_append, List.mem_cons]; decide) (by decide)
    (by decide) (by simp) [] 1
    (initState [] (Cin.ofText (linesText [['e', 'r', 'a', 's', 'e']])))
    (by simp) (by decide) (by simp [initState, linesText])
  obtain ⟨_, _, hii, hhi, _, _, hwf, hcall⟩ := C17_displayGame_call_in_range
    ['s', 'p', 'e', 'e', 'd'] [] sampleWords (Cin.ofText (linesText [['e', 'r', 'a', 's', 'e']]))
    [] _ s1 1 Round.start (Or.inl rfl) hrun
  exact ⟨s1, hrun, hii, hhi, hwf, hcall (by decide)⟩

/-! ## importWords on lines of one word each -/

theorem importLoop_lines :
    ∀ (tokens : List Str) (fuel : Nat) (sp : List Char) (extracted_word : Str)
      (word_array : List Str) (index_counter : Nat),
      (∀ t ∈ tokens, Typeable t) → (∀ c ∈ sp, isspace c = true) →
      index_counter + tokens.length ≤ word_array.length → tokens.length + 1 ≤ fuel →
      importLoop fuel (Cin.ofText (sp ++ linesText tokens)) extracted_word word_array
          index_counter =
        .ok (word_array.take index_counter ++ tokens ++
          word_array.drop (index_counter + tokens.length))
  | _, 0, _, _, _, _, _, _, _, hf => by omega
  | [], fuel + 1, sp, ew, arr, idx, _, hsp, _, _ => by
    have hdrop : (sp ++ linesText []).dropWhile isspace = [] := by
      simp only [linesText, List.append_nil]
      exact List.dropWhile_eq_nil_iff.mpr hsp
    simp only [importLoop, Cin.readWord, Cin.ofText, Bool.or_self, Bool.false_eq_true,
      if_false, hdrop, Cin.fail, if_true, List.append_nil, Nat.add_zero, List.length_nil,
      List.take_append_drop]
  | t :: ts, fuel + 1, sp, ew, arr, idx, htok, hsp, hidx, hf => by
    have hread := Cin.readWord_word sp t (linesText ts) ew hsp (htok t (List.mem_cons_self _ _))
    have hlen : (t :: ts).length = ts.length + 1 := rfl
    rw [hlen] at hidx hf
    have hlt : idx < arr.length := by omega
    have ih := importLoop_lines ts fuel ['\n'] t (arr.set idx t) (idx + 1)
      (fun x hx => htok x (List.mem_cons_of_mem _ hx)) (by simp [isspace])
      (by rw [List.length_set]; omega) (by omega)
    show (let r := (Cin.ofText (sp ++ (t ++ '\n' :: linesText ts))).readWord ew
      if r.1.fail then Except.ok arr
      else if idx < arr.length then importLoop fuel r.1 r.2 (arr.set idx r.2) (idx + 1)
      else Except.error Fault.outOfRange) = _
    rw [hread]
    have ih' : importLoop fuel (Cin.ofText ('\n' :: linesText ts)) t (arr.set idx t) (idx + 1) =
        _ := ih
    simp only [Cin.fail, Cin.ofText, Bool.false_eq_true, if_false, hlt, if_true]
    simp only [Cin.ofText] at ih'
    rw [ih']
    have htake : (arr.set idx t).take (idx + 1) = arr.take idx ++ [t] := by
      rw [List.take_succ, List.getElem?_set_self hlt, List.set_take,
        List.set_eq_of_length_le (by rw [List.length_take]; omega)]
      rfl
    have hdrop : (arr.set idx t).drop (idx + 1 + ts.length) =
        arr.drop (idx + (ts.length + 1)) := by
      rw [List.drop_set_of_lt t arr (by omega)]
      congr 1
      omega
    rw [htake, hdrop, hlen]
    simp

/-- `importWords` on a file of lines of one word each, into the array of
`main`: the tokens fill the first slots in their order, the other slots stay
empty. -/
theorem importWords_lines (tokens : List Str) (fuel : Nat)
    (htok : ∀ t ∈ tokens, Typeable t) (hlen : tokens.length ≤ TOTAL_WORDS)
    (hfuel : tokens.length + 1 ≤ fuel) :
    importWords word_list_init (some (linesText tokens)) fuel =
      .ok (tokens ++ List.replicate (TOTAL_WORDS - tokens.length) [], []) := by
  have h := importLoop_lines tokens fuel [] [] word_list_init 0 htok (by simp)
    (by simp [word_list_init]; exact hlen) hfuel
  simp only [List.nil_append, List.take_zero, Nat.zero_add] at h
  unfold importWords
  simp only [h, Except.map]
  simp only [word_list_init, List.drop_replicate]

theorem sampleWords_eq :
    sampleWords = [['c', 'r', 'a', 'n', 'e'], ['s', 'p', 'e', 'e', 'd'],
      ['e', 'r', 'a', 's', 'e'], ['a', 'b', 'b', 'e', 'y'], ['g', 'e', 'e', 's', 'e']] ++
      List.replicate (TOTAL_WORDS - [['c', 'r', 'a', 'n', 'e'], ['s', 'p', 'e', 'e', 'd'],
      ['e', 'r', 'a', 's', 'e'], ['a', 'b', 'b', 'e', 'y'], ['g', 'e', 'e', 's', 'e']].length)
        [] := by
  have : TOTAL_WORDS - [['c', 'r', 'a', 'n', 'e'], ['s', 'p', 'e', 'e', 'd'],
      ['e', 'r', 'a', 's', 'e'], ['a', 'b', 'b', 'e', 'y'],
      ['g', 'e', 'e', 's', 'e']].length = 2310 := by decide
  rw [this]
  rfl

/-! ## Claim on `importWords` -/

/-- C13, as stated, fails: from a file that holds the five words crane, speed,
erase, abbey and geese, one on each line, `importWords` leaves `sampleWords`,
whose slots 5 to 2314 still hold the empty string. -/
theorem C13_counterexample_five_words :
    importWords word_list_init (some (linesText [['c', 'r', 'a', 'n', 'e'],
        ['s', 'p', 'e', 'e', 'd'], ['e', 'r', 'a', 's', 'e'], ['a', 'b', 'b', 'e', 'y'],
        ['g', 'e', 'e', 's', 'e']])) 6 = .ok (sampleWords, []) ∧
      sampleWords[5]? = some [] ∧ ¬ ∀ w ∈ sampleWords, w.length = 5 := by
  have hrun := importWords_lines [['c', 'r', 'a', 'n', 'e'], ['s', 'p', 'e', 'e', 'd'],
    ['e', 'r', 'a', 's', 'e'], ['a', 'b', 'b', 'e', 'y'], ['g', 'e', 'e', 's', 'e']] 6
    (by decide) (by decide) (by decide)
  rw [← sampleWords_eq] at hrun
  have hmem : ([] : Str) ∈ sampleWords := by
    simp only [sampleWords, List.mem_append, List.mem_replicate]
    right
    exact ⟨by decide, trivial⟩
  refine ⟨hrun, ?_, fun hall => absurd (hall [] hmem) (by decide)⟩
  unfold sampleWords
  rw [List.getElem?_append_right (by decide)]
  simp only [List.length_cons, List.length_nil]
  rw [List.getElem?_replicate]
  decide

/-- C13, amended: for every sequence of at most `TOTAL_WORDS` tokens, one on
each line of the file, read by `importWords` into the initially empty
`TOTAL_WORDS`-slot array, slot `i` of the resulting array holds token `i` when
there is one and the empty string otherwise; hence every word of the array has
length exactly 5 if and only if the file holds `TOTAL_WORDS` tokens and each
of them has length 5. -/
theorem C13_importWords_slots (tokens : List Str) (fuel : Nat)
    (htok : ∀ t ∈ tokens, Typeable t) (hlen : tokens.length ≤ TOTAL_WORDS)
    (hfuel : tokens.length + 1 ≤ fuel) :
    ∃ filled out, importWords word_list_init (some (linesText tokens)) fuel =
        .ok (filled, out) ∧
      filled.length = TOTAL_WORDS ∧
      (∀ i, i < TOTAL_WORDS → filled[i]? = some (tokens.getD i [])) ∧
      ((∀ w ∈ filled, w.length = 5) ↔
        (tokens.length = TOTAL_WORDS ∧ ∀ t ∈ tokens, t.length = 5)) := by
  refine ⟨_, _, importWords_lines tokens fuel htok hlen hfuel, ?_, ?_, ?_⟩
  · rw [List.length_append, List.length_replicate]
    omega
  · intro i hi
    rcases Nat.lt_or_ge i tokens.length with h1 | h1
    · rw [List.getElem?_append_left h1, List.getD_eq_getElem?_getD,
        List.getElem?_eq_getElem h1]
      rfl
    · rw [List.getElem?_append_right h1, List.getElem?_replicate,
        List.getD_eq_getElem?_getD, List.getElem?_eq_none h1, if_pos (by omega)]
      rfl
  · constructor
    · intro hall
      have hfull : tokens.length = TOTAL_WORDS := by
        by_contra hne
        have hmem : ([] : Str) ∈ tokens ++ List.replicate (TOTAL_WORDS - tokens.length) [] := by
          rw [List.mem_append, List.mem_replicate]
          right
          exact ⟨by omega, rfl⟩
        exact absurd (hall [] hmem) (by decide)
      exact ⟨hfull, fun t ht => hall t (List.mem_append_left _ ht)⟩
    · intro ⟨_, hfive⟩ w hw
      rcases List.mem_append.mp hw with h1 | h1
      · exact hfive w h1
      · rw [List.mem_replicate] at h1
        omega

/-- C13, amended, on a file of the two lines crane and speed: slot 1 holds
speed and slot 2 the empty string. -/
theorem C13_importWords_slots_witness :
    ∃ filled out, importWords word_list_init (some (linesText [['c', 'r', 'a', 'n', 'e'],
        ['s', 'p', 'e', 'e', 'd']])) 3 = .ok (filled, out) ∧
      filled.length = TOTAL_WORDS ∧
      filled[1]? = some ['s', 'p', 'e', 'e', 'd'] ∧ filled[2]? = some [] := by
  obtain ⟨filled, out, hrun, hl, hslots, _⟩ := C13_importWords_slots
    [['c', 'r', 'a', 'n', 'e'], ['s', 'p', 'e', 'e', 'd']] 3 (by decide) (by decide)
    (by decide)
  exact ⟨filled, out, hrun, hl, hslots 1 (by decide), hslots 2 (by decide)⟩

end Wordle
